import Mathlib

/-!
Verification of the dataIDE profiling/charting core.

This file gives a shallow embedding, in Lean, of the profiling engine of the
dataIDE repository (`src/dataide/services/profile.py`,
`src/dataide/services/charts.py`, `src/dataide/utils.py`, `src/dataide/schemas.py`,
and the duplicated copies in `src/main.py`), and proves or refutes the frozen
claims about it.

Modelling conventions:
* Python floats are modelled as exact rationals (`ℚ`); float rounding error is
  outside the scope of the claims, which are about structural behaviour.
* A pandas cell is `Option Scalar`: `none` models a NaN arising from a key that
  is absent from a row, `some Scalar.null` models an explicit `None` value.
* Values whose true numeric content is an irrational square root (the `std`
  statistic) are represented by the rational radicand (see `PValue.sqrtV`);
  the correlation coefficients rounded to 3 decimals are rational and are
  computed exactly with an integer square root.
* `pd.to_numeric(_, errors="coerce")` and `pd.to_datetime(_, errors="coerce")`
  are modelled per cell; the string grammars accepted are the usual decimal
  float grammar and ISO `YYYY-MM-DD` dates (further formats accepted by pandas,
  such as locale-dependent or current-date-relative forms, play no role in the
  claims and are modelled as coercion failures).
-/

attribute [local semireducible] Rat.add Rat.mul Rat.inv Rat.sub

namespace DataIDE

/-! ### Generic helpers (order-preserving dedup, substring, lower-case) -/

/-- First-seen-order deduplication, the order in which Python dicts/pandas
collect keys and `value_counts` collects distinct values. -/
def firstSeen {α : Type} [DecidableEq α] (l : List α) : List α :=
  l.foldl (fun acc s => if s ∈ acc then acc else acc ++ [s]) []

/-- Substring test on character lists (Python's `needle in hay`). -/
def containsSub (needle : List Char) : List Char → Bool
  | [] => needle.isEmpty
  | c :: t => needle.isPrefixOf (c :: t) || containsSub needle t

/-- Python's `needle in hay` on strings. -/
def strContains (needle hay : String) : Bool :=
  containsSub needle.data hay.data

/-- Python's `str.lower()` (character-wise, as for the ASCII identifiers used
by the profiler). -/
def lowerStr (s : String) : String :=
  String.mk (s.data.map Char.toLower)

/-! ### Integer square root (fuel-based so that it reduces in the kernel) -/

/-- Auxiliary recursion for `isqrt`; the fuel only needs to dominate the
`n / 4` recursion depth, so `fuel = n` is always enough. -/
def isqrtFuel : ℕ → ℕ → ℕ
  | 0, _ => 0
  | fuel+1, n =>
    if n < 2 then n else
    let r := 2 * isqrtFuel fuel (n / 4)
    if (r+1)*(r+1) ≤ n then r+1 else r

/-- `isqrt n = ⌊√n⌋`. -/
def isqrt (n : ℕ) : ℕ := isqrtFuel n n

/-- `ceilSqrt n = ⌈√n⌉`. -/
def ceilSqrt (m : ℕ) : ℕ :=
  if isqrt m * isqrt m = m then isqrt m else isqrt m + 1

/-! ### Scalars, rows, DataFrame model

`src/dataide/utils.py` builds `pd.DataFrame(rows)` from a list of JSON
objects.  A row is an association list from column name to scalar; the
DataFrame's columns are the union of the keys in first-appearance order, and a
key absent from a row yields NaN in that row's cell. -/

/-- A loosely-typed scalar appearing in sample rows (string, number, boolean,
or null), as in the `Dict[str, object]` sample-row payload. -/
inductive Scalar where
  | null : Scalar
  | boolean : Bool → Scalar
  | num : ℚ → Scalar
  | text : String → Scalar
deriving DecidableEq, Repr

/-- One cell of a DataFrame column: `none` is NaN from a missing key,
`some Scalar.null` an explicit `None`. -/
abbrev Cell := Option Scalar

/-- One sample row: a JSON object. -/
abbrev Row := List (String × Scalar)

/-- `pd.DataFrame(rows).columns`: union of keys in first-appearance order. -/
def columnsOf (rows : List Row) : List String :=
  firstSeen ((rows.map (fun r => r.map Prod.fst)).flatten)

/-- The cells of one column, one per row (`df[column]`). -/
def colCells (rows : List Row) (c : String) : List Cell :=
  rows.map (fun r => r.lookup c)

/-- `pd.isna` on one cell. -/
def isNullCell : Cell → Bool
  | none => true
  | some Scalar.null => true
  | some _ => false

/-- The non-null scalar values of a column. -/
def nonNullVals (cells : List Cell) : List Scalar :=
  cells.filterMap (fun c => match c with
    | some Scalar.null => none
    | some v => some v
    | none => none)

/-- The dtype classes distinguished by the profiler: numeric (int64/float64),
bool, and object. -/
inductive DType where
  | numericD : DType
  | booleanD : DType
  | objectD : DType
deriving DecidableEq, Repr

def isNumScalar : Scalar → Bool
  | Scalar.num _ => true
  | _ => false

def isBoolScalar : Scalar → Bool
  | Scalar.boolean _ => true
  | _ => false

def isTextScalar : Scalar → Bool
  | Scalar.text _ => true
  | _ => false

/-- pandas dtype inference for a column built from a list of dicts:
any string makes the column object; bools mixed with numbers or with nulls
are object, pure bools are bool dtype; numbers (with or without nulls) are
numeric (float64/int64); a column with no values at all is float64 (all-NaN
from missing keys) unless an explicit `None` is present, which keeps it
object. -/
def inferDType (cells : List Cell) : DType :=
  let vals := nonNullVals cells
  if vals.any isTextScalar then DType.objectD
  else if vals.any isBoolScalar then
    (if vals.any isNumScalar then DType.objectD
     else if cells.any isNullCell then DType.objectD
     else DType.booleanD)
  else if vals.any isNumScalar then DType.numericD
  else if cells.any (fun c => c == some Scalar.null) then DType.objectD
  else DType.numericD

/-- `pd.api.types.is_numeric_dtype` (bool dtype counts as numeric). -/
def isNumericDtype (d : DType) : Bool :=
  d == DType.numericD || d == DType.booleanD

/-! ### Numeric coercion (`pd.to_numeric(series, errors="coerce")`) -/

/-- Numeric value of a digit list (most significant first). -/
def digitsVal (l : List Char) : ℕ :=
  l.foldl (fun n c => 10 * n + (c.toNat - 48)) 0

/-- Optional sign; returns (isNegative, rest). -/
def parseSign : List Char → Bool × List Char
  | '-' :: t => (true, t)
  | '+' :: t => (false, t)
  | l => (false, l)

/-- Exponent suffix after `e`/`E`: sign and at least one digit. -/
def parseExp (l : List Char) : Option ℚ :=
  let s := parseSign l
  let d := s.2.span Char.isDigit
  if d.1.isEmpty ∨ ¬ d.2.isEmpty then none
  else some (if s.1 then (1 : ℚ) / ((10 : ℚ) ^ digitsVal d.1)
             else ((10 : ℚ) ^ digitsVal d.1))

/-- The float grammar of `float(str)`: sign, integer digits, optional
fractional digits, optional exponent; at least one digit overall.  (Python
additionally accepts `inf`, `nan` and digit-group underscores; those forms do
not occur in any claim and are modelled as failures.) -/
def parseRatCore (l : List Char) : Option ℚ :=
  let s := parseSign l
  let ip := s.2.span Char.isDigit
  let fp := match ip.2 with
    | '.' :: t => t.span Char.isDigit
    | _ => ([], ip.2)
  if ip.1.isEmpty ∧ fp.1.isEmpty then none else
  let mantissa : ℚ := (digitsVal ip.1 : ℚ) + (digitsVal fp.1 : ℚ) / ((10 : ℚ) ^ fp.1.length)
  let e := match fp.2 with
    | [] => some (1 : ℚ)
    | 'e' :: t => parseExp t
    | 'E' :: t => parseExp t
    | _ => none
  match e with
  | none => none
  | some ev => some ((if s.1 then -1 else 1) * mantissa * ev)

/-- Leading/trailing whitespace stripped, as `float(str)` does. -/
def trimChars (l : List Char) : List Char :=
  ((l.dropWhile Char.isWhitespace).reverse.dropWhile Char.isWhitespace).reverse

/-- Parse a string as a float, `none` on failure. -/
def parseRat (s : String) : Option ℚ :=
  parseRatCore (trimChars s.data)

/-- `pd.to_numeric(_, errors="coerce")` on one cell: nulls fail, booleans map
to 1/0, numbers pass through, strings go through the float grammar. -/
def coerceNumericCell : Cell → Option ℚ
  | none => none
  | some Scalar.null => none
  | some (Scalar.boolean b) => some (if b then 1 else 0)
  | some (Scalar.num q) => some q
  | some (Scalar.text s) => parseRat s

/-- `coerce_numeric` of `src/dataide/utils.py`: elementwise coercion of a
column; per-element failure is local. -/
def coerce_numeric (cells : List Cell) : List (Option ℚ) :=
  cells.map coerceNumericCell

/-! ### Date coercion (`pd.to_datetime(series, errors="coerce")`)

Dates are represented as days since 1970-01-01 (the `.date()` truncation of
the timestamp); the civil-from-days conversions below are the standard
proleptic-Gregorian algorithms. -/

def daysFromCivil (y : ℤ) (m d : ℕ) : ℤ :=
  let y2 : ℤ := if m ≤ 2 then y - 1 else y
  let era : ℤ := Int.fdiv y2 400
  let yoe : ℤ := y2 - era * 400
  let mp : ℤ := if 2 < m then (m : ℤ) - 3 else (m : ℤ) + 9
  let doy : ℤ := (Int.fdiv (153 * mp + 2) 5) + d - 1
  let doe : ℤ := yoe * 365 + Int.fdiv yoe 4 - Int.fdiv yoe 100 + doy
  era * 146097 + doe - 719468

def civilFromDays (z : ℤ) : ℤ × ℕ × ℕ :=
  let z2 := z + 719468
  let era := Int.fdiv z2 146097
  let doe := (z2 - era * 146097).toNat
  let yoe := ((doe - doe / 1460) + doe / 36524 - doe / 146096) / 365
  let doy := doe - ((365 * yoe + yoe / 4) - yoe / 100)
  let mp := (5 * doy + 2) / 153
  let d := doy - (153 * mp + 2) / 5 + 1
  let m := if mp < 10 then mp + 3 else mp - 9
  (if m ≤ 2 then (yoe : ℤ) + era * 400 + 1 else (yoe : ℤ) + era * 400, m, d)

def digitChar (n : ℕ) : Char := Char.ofNat (48 + n)

/-- Decimal digits of a natural number (fuel-based for kernel reduction). -/
def natToChars : ℕ → ℕ → List Char
  | 0, _ => []
  | fuel+1, n => if n < 10 then [digitChar n] else natToChars fuel (n / 10) ++ [digitChar (n % 10)]

def padChars (w : ℕ) (l : List Char) : List Char :=
  List.replicate (w - l.length) '0' ++ l

/-- `str(timestamp.date())`: ISO `YYYY-MM-DD` rendering of a day count. -/
def isoOfDays (z : ℤ) : String :=
  let c := civilFromDays z
  (if c.1 < 0 then "-" else "")
    ++ String.mk (padChars 4 (natToChars (c.1.natAbs + 1) c.1.natAbs))
    ++ "-" ++ String.mk (padChars 2 (natToChars (c.2.1 + 1) c.2.1))
    ++ "-" ++ String.mk (padChars 2 (natToChars (c.2.2 + 1) c.2.2))

/-- ISO `YYYY-MM-DD` parsing (the date-string format relevant to the claims;
pandas accepts further formats, modelled as failures, see the header). -/
def parseDateISO (s : String) : Option ℤ :=
  match s.data with
  | [y1, y2, y3, y4, '-', m1, m2, '-', d1, d2] =>
    if ([y1, y2, y3, y4, m1, m2, d1, d2].all Char.isDigit) then
      let y := digitsVal [y1, y2, y3, y4]
      let m := digitsVal [m1, m2]
      let d := digitsVal [d1, d2]
      if 1 ≤ m ∧ m ≤ 12 ∧ 1 ≤ d ∧ d ≤ 31 then some (daysFromCivil y m d) else none
    else none
  | _ => none

def nsPerDay : ℤ := 86400000000000

/-- `pd.to_datetime(_, errors="coerce")` on one cell: numbers are epoch
nanoseconds, strings are parsed as dates, everything else is NaT.  The value
is truncated to its calendar day (`.date()`), which commutes with the min/max
taken later. -/
def coerceDateCell : Cell → Option ℤ
  | none => none
  | some Scalar.null => none
  | some (Scalar.boolean _) => none
  | some (Scalar.num q) => some (Int.fdiv (Int.floor q) nsPerDay)
  | some (Scalar.text s) => parseDateISO s

/-- `coerce_datetime` of `src/dataide/utils.py`, elementwise. -/
def coerce_datetime (cells : List Cell) : List (Option ℤ) :=
  cells.map coerceDateCell

/-! ### Stringification (`series.astype(str)`) and value counts -/

/-- `str(x)` for a scalar.  Integral numbers render like Python ints; for
non-integral numbers the exact rendering of Python's float repr is immaterial
to every claim and a `num/den` form is used. -/
def strOfScalar : Scalar → String
  | Scalar.null => "None"
  | Scalar.boolean b => if b then "True" else "False"
  | Scalar.num q =>
    (if q.num < 0 then "-" else "")
      ++ String.mk (natToChars (q.num.natAbs + 1) q.num.natAbs)
      ++ (if q.den = 1 then "" else "/" ++ String.mk (natToChars (q.den + 1) q.den))
  | Scalar.text s => s

/-- `series.astype(str)` on one cell: note that nulls do NOT disappear; a NaN
stringifies to `"nan"` and an explicit `None` to `"None"`. -/
def strOfCell : Cell → String
  | none => "nan"
  | some v => strOfScalar v

instance : IsTotal (String × ℕ) (fun a b => b.2 ≤ a.2) :=
  ⟨fun a b => Nat.le_total b.2 a.2⟩

instance : IsTrans (String × ℕ) (fun a b => b.2 ≤ a.2) :=
  ⟨fun _ _ _ h1 h2 => le_trans h2 h1⟩

/-- `series.value_counts()`: occurrence counts of the distinct strings, in
descending count order (tie order is not part of pandas' contract; a sort that
is stable on the first-seen order is used). -/
def valueCounts (l : List String) : List (String × ℕ) :=
  List.insertionSort (fun a b => b.2 ≤ a.2) ((firstSeen l).map (fun k => (k, l.count k)))

/-! ### Schemas (`src/dataide/schemas.py`) -/

structure ColumnMeta where
  name : String
  dtype : String
  description : Option String := none
  nullable : Bool := true
  pii : Option String := some "none"
  semantics : Option String := none
deriving DecidableEq, Repr

structure TableSchema where
  name : String
  description : Option String := none
  primary_key : Option (List String) := none
  foreign_keys : Option (List (List (String × String))) := none
  columns : List ColumnMeta
deriving DecidableEq, Repr

structure SuggestedChart where
  title : String
  kind : String
  table : String
  x : String
  y : Option String := none
  note : Option String := none
deriving DecidableEq, Repr

/-! ### Quantiles and the numeric summary block -/

/-- Linear interpolation into a sorted list at fractional index `h`
(pandas' `interpolation="linear"` quantile kernel): with `i = ⌊h⌋`, the value
is `v[i] + (h - i) * (v[i+1] - v[i])`, degenerating to `v[i]` at the last
index (where the fractional part is zero). -/
def interp (v : List ℚ) (h : ℚ) : ℚ :=
  v.getD (Int.floor h).toNat 0
    + (h - ((Int.floor h).toNat : ℚ))
      * (v.getD ((Int.floor h).toNat + 1) (v.getD (Int.floor h).toNat 0)
          - v.getD (Int.floor h).toNat 0)

/-- `series.quantile(q)` over an ascending-sorted list of the non-null
values: linear interpolation at `h = q * (n - 1)`. -/
def quantileOf (sorted : List ℚ) (q : ℚ) : ℚ :=
  interp sorted (q * ((sorted.length : ℚ) - 1))

/-- The numeric block of a column profile.  `stdSq` is the population
variance (`std(ddof=0)` squared): the standard deviation itself is the
(generally irrational) square root of this stored rational. -/
structure NumericStats where
  min : ℚ
  p25 : ℚ
  p50 : ℚ
  p75 : ℚ
  max : ℚ
  mean : ℚ
  stdSq : ℚ
deriving DecidableEq, Repr

/-- min/p25/p50/p75/max/mean/std over the coerced non-null values
(profile.py lines 42-50): the order statistics are those of the ascending
sort of the values. -/
def numericStats (nums : List ℚ) : NumericStats :=
  let sorted := List.insertionSort (· ≤ ·) nums
  let n : ℚ := (nums.length : ℚ)
  let mean := nums.sum / n
  { min := sorted.headD 0
    p25 := quantileOf sorted (1/4)
    p50 := quantileOf sorted (1/2)
    p75 := quantileOf sorted (3/4)
    max := sorted.getLastD 0
    mean := mean
    stdSq := (nums.map (fun x => (x - mean) * (x - mean))).sum / n }

/-! ### Pearson correlation (`numeric_df.corr(numeric_only=True).round(3)`)

pandas computes each pair over the rows where both columns are non-null
(pairwise-complete observations) and yields NaN (modelled as `none`) when a
variance in the pair is zero (0/0), including on the diagonal.  The rounded
coefficient `round(1000 · sxy / √(sxx·syy)) / 1000` is rational and is
computed exactly through an integer square root; the half-way rounding
convention (round half up) differs from binary-float banker's rounding only
on exact-half values, which no claim distinguishes. -/

/-- Rows where both columns have a coerced value. -/
def validPairs (xs ys : List (Option ℚ)) : List (ℚ × ℚ) :=
  (xs.zip ys).filterMap (fun p => match p with
    | (some a, some b) => some (a, b)
    | _ => none)

/-- `⌊c·√R⌋` for rationals `c` and `R ≥ 0`, computed exactly:
with `c = cn/cd` and `R = rn/rd`, `c·√R = cn·√(rn·rd)/(cd·rd)`, and
`⌊√m/d⌋ = ⌊√m⌋/d`, `⌈√m/d⌉ = ⌈⌈√m⌉/d⌉` for natural `m, d`. -/
def floorMulSqrt (c R : ℚ) : ℤ :=
  if 0 ≤ c.num then
    ((isqrt (c.num.natAbs * c.num.natAbs * (R.num.toNat * R.den)) / (c.den * R.den) : ℕ) : ℤ)
  else
    -(((ceilSqrt (c.num.natAbs * c.num.natAbs * (R.num.toNat * R.den)) + (c.den * R.den) - 1)
        / (c.den * R.den) : ℕ) : ℤ)

/-- `round(a/√D, 3)` for `D > 0`: with `F = ⌊2000·a/√D⌋`, the rounded value
is `((F + 1) / 2) / 1000` (integer division by 2 is floor division). -/
def roundCorr (a D : ℚ) : ℚ :=
  (((floorMulSqrt (2000 * a / D) D + 1) / 2 : ℤ) : ℚ) / 1000

/-- Mean of the first components of the valid pairs. -/
def meanFst (ps : List (ℚ × ℚ)) : ℚ := (ps.map Prod.fst).sum / (ps.length : ℚ)

/-- Mean of the second components of the valid pairs. -/
def meanSnd (ps : List (ℚ × ℚ)) : ℚ := (ps.map Prod.snd).sum / (ps.length : ℚ)

/-- Centred cross products `Σ (x - x̄)(y - ȳ)`. -/
def sxyOf (ps : List (ℚ × ℚ)) : ℚ :=
  (ps.map (fun p => (p.1 - meanFst ps) * (p.2 - meanSnd ps))).sum

/-- Centred sum of squares of the first components. -/
def sxxOf (ps : List (ℚ × ℚ)) : ℚ :=
  (ps.map (fun p => (p.1 - meanFst ps) * (p.1 - meanFst ps))).sum

/-- Centred sum of squares of the second components. -/
def syyOf (ps : List (ℚ × ℚ)) : ℚ :=
  (ps.map (fun p => (p.2 - meanSnd ps) * (p.2 - meanSnd ps))).sum

/-- One entry of the correlation matrix for a pair of coerced columns: NaN
(`none`) when there is no common observation or a variance in the pair is
zero (float 0/0); otherwise the rounded `sxy/√(sxx·syy)` (the `1/n`
normalisations of covariance and variances cancel). -/
def corrCell (xs ys : List (Option ℚ)) : Option ℚ :=
  if (validPairs xs ys).isEmpty then none
  else if sxxOf (validPairs xs ys) = 0 ∨ syyOf (validPairs xs ys) = 0 then none
  else some (roundCorr (sxyOf (validPairs xs ys))
    (sxxOf (validPairs xs ys) * syyOf (validPairs xs ys)))

/-- `numeric_df.corr(...).round(3).to_dict()`: the full matrix keyed by
column name, diagonal included. -/
def corrMatrix (ncols : List (String × List (Option ℚ))) :
    List (String × List (String × Option ℚ)) :=
  ncols.map (fun a => (a.1, ncols.map (fun b => (b.1, corrCell a.2 b.2))))

/-! ### Column / table / dataset profiler (`compute_profile`) -/

/-- A column profile: the four unconditional stats plus the optional numeric,
date-range and top-values blocks, in the insertion order of the Python stats
dict. -/
structure ColProfile where
  non_null : ℕ
  nulls : ℕ
  null_pct : ℚ
  distinct : ℕ
  numeric : Option NumericStats := none
  dates : Option (String × String) := none
  top_values : Option (List (String × ℕ)) := none
deriving DecidableEq, Repr

structure TableProfile where
  row_count : ℕ
  columns : List (String × ColProfile) := []
  correlation : Option (List (String × List (String × Option ℚ))) := none
deriving DecidableEq, Repr

/-- `{t.name: t for t in tables}.get(name)`: the dict comprehension keeps the
last schema with a given name. -/
def schemaFor (tables : List TableSchema) (tname : String) : Option TableSchema :=
  tables.reverse.find? (fun t => t.name == tname)

/-- The dtype hint for a column: first matching column declaration,
`(dtype or "").lower()`. -/
def hintFor (ts : Option TableSchema) (col : String) : Option String :=
  ts.bind (fun t => (t.columns.find? (fun cm => cm.name == col)).map (fun cm => lowerStr cm.dtype))

def numericHints : List String :=
  ["int", "integer", "bigint", "float", "double", "decimal", "number"]

/-- `hinted_dtype in {"int", ..., "number"}` (a missing hint is not in the set). -/
def hintIsNumeric (h : Option String) : Bool :=
  match h with
  | some s => numericHints.contains s
  | none => false

/-- `hinted_dtype and "date" in hinted_dtype` (`None` and `""` are falsy). -/
def hintHasDate (h : Option String) : Bool :=
  match h with
  | some s => s != "" && strContains "date" s
  | none => false

/-- The per-column body of `compute_profile` (profile.py lines 22-65). -/
def profileColumn (rc : ℕ) (ts : Option TableSchema) (colName : String)
    (cells : List Cell) : ColProfile :=
  let nonNull := cells.countP (fun c => !(isNullCell c))
  let nulls := rc - nonNull
  let nullPct : ℚ := if rc = 0 then 0 else (nulls : ℚ) / ((max 1 rc : ℕ) : ℚ)
  let hint := hintFor ts colName
  let dt := inferDType cells
  let numeric :=
    if hintIsNumeric hint || isNumericDtype dt then
      let nums := (coerce_numeric cells).filterMap id
      if nums.isEmpty then none else some (numericStats nums)
    else none
  let dates :=
    if hintHasDate hint || strContains "date" (lowerStr colName) then
      let ds := (coerce_datetime cells).filterMap id
      if ds.isEmpty then none
      else some (isoOfDays ((List.insertionSort (· ≤ ·) ds).headD 0),
                 isoOfDays ((List.insertionSort (· ≤ ·) ds).getLastD 0))
    else none
  let tv :=
    if dt == DType.objectD then
      let vc := (valueCounts (cells.map strOfCell)).take 5
      if vc.isEmpty then none else some vc
    else none
  { non_null := nonNull, nulls := nulls, null_pct := nullPct,
    distinct := (firstSeen (nonNullVals cells)).length,
    numeric := numeric, dates := dates, top_values := tv }

/-- The numeric-coercible columns (`numeric_df`), in column order. -/
def numericCols (rows : List Row) : List (String × List (Option ℚ)) :=
  (columnsOf rows).filterMap (fun c =>
    if (coerce_numeric (colCells rows c)).any Option.isSome
    then some (c, coerce_numeric (colCells rows c)) else none)

/-- The per-table body of `compute_profile` (profile.py lines 13-75): the
empty table short-circuits; otherwise one column profile per column and,
when at least two columns coerce, the correlation matrix. -/
def profileTable (ts : Option TableSchema) (rows : List Row) : TableProfile :=
  let rc := rows.length
  if rc = 0 then { row_count := 0 } else
  let cols := columnsOf rows
  let columns := cols.map (fun c => (c, profileColumn rc ts c (colCells rows c)))
  let ncols := numericCols rows
  let corr := if 2 ≤ ncols.length then some (corrMatrix ncols) else none
  { row_count := rc, columns := columns, correlation := corr }

/-- `compute_profile` of `src/dataide/services/profile.py`. -/
def compute_profile (sampleRows : List (String × List Row))
    (tables : List TableSchema) : List (String × TableProfile) :=
  sampleRows.map (fun p => (p.1, profileTable (schemaFor tables p.1) p.2))

/-! ### Chart suggester (`src/dataide/services/charts.py`) -/

/-- Column has at least one numeric-coercible value. -/
def numAnyPred (rows : List Row) (c : String) : Bool :=
  (coerce_numeric (colCells rows c)).any Option.isSome

/-- The per-table body of `suggest_charts`: first numeric column → histogram,
first low-cardinality object column → bar, first date-named date-coercible
column paired with the first numeric column → line.  (The `if date_col and
num_col` truthiness check also rejects the empty column name.) -/
def tableCharts (tname : String) (rows : List Row) : List SuggestedChart :=
  if rows.isEmpty then [] else
  let cols := columnsOf rows
  let histPart := match cols.find? (fun c => numAnyPred rows c) with
    | some c => [{ title := tname ++ "." ++ c ++ " — distribution",
                   kind := "hist", table := tname, x := c : SuggestedChart }]
    | none => []
  let barPart := match cols.find? (fun c =>
      inferDType (colCells rows c) == DType.objectD
        && (firstSeen ((colCells rows c).map strOfCell)).length ≤ 30) with
    | some c => [{ title := tname ++ "." ++ c ++ " — top categories",
                   kind := "bar", table := tname, x := c : SuggestedChart }]
    | none => []
  let dateCol := cols.find? (fun c =>
    strContains "date" (lowerStr c) && (coerce_datetime (colCells rows c)).any Option.isSome)
  let linePart := match dateCol, cols.find? (fun c => numAnyPred rows c) with
    | some dc, some nc =>
      if dc != "" && nc != "" then
        [{ title := tname ++ ": " ++ nc ++ " over " ++ dc,
           kind := "line", table := tname, x := dc, y := some nc : SuggestedChart }]
      else []
    | _, _ => []
  histPart ++ barPart ++ linePart

/-- `suggest_charts` of `src/dataide/services/charts.py`: per-table blocks in
table order, truncated to the first 6 overall. -/
def suggest_charts (sampleRows : List (String × List Row)) : List SuggestedChart :=
  ((sampleRows.map (fun p => tableCharts p.1 p.2)).flatten).take 6

/-! ### Profile flattener (`profile_to_rows`) -/

/-- A flattened stat value.  `sqrtV q` denotes the real number `√q` (the
`std` stat); `nanV` is a float NaN (which is *not* `None` and is therefore
emitted by the flattener). -/
inductive PValue where
  | intV : ℤ → PValue
  | ratV : ℚ → PValue
  | sqrtV : ℚ → PValue
  | strV : String → PValue
  | topV : List (String × ℕ) → PValue
  | nanV : PValue
deriving DecidableEq, Repr

/-- `cstats.items()`: the stat dict of one column in insertion order. -/
def statsList (c : ColProfile) : List (String × PValue) :=
  [("non_null", PValue.intV c.non_null), ("nulls", PValue.intV c.nulls),
   ("null_pct", PValue.ratV c.null_pct), ("distinct", PValue.intV c.distinct)]
  ++ (match c.numeric with
      | none => []
      | some nb => [("min", PValue.ratV nb.min), ("p25", PValue.ratV nb.p25),
                    ("p50", PValue.ratV nb.p50), ("p75", PValue.ratV nb.p75),
                    ("max", PValue.ratV nb.max), ("mean", PValue.ratV nb.mean),
                    ("std", PValue.sqrtV nb.stdSq)])
  ++ (match c.dates with
      | none => []
      | some md => [("min_date", PValue.strV md.1), ("max_date", PValue.strV md.2)])
  ++ (match c.top_values with
      | none => []
      | some tv => [("top_values", PValue.topV tv)])

structure FlatRow where
  level : String
  table : String
  column : String
  metric : String
  value : PValue
deriving DecidableEq, Repr

/-- The `(i, j), j > i` index pairs of the Python double loop, by position. -/
def upperPairs {α : Type} : List α → List (α × α)
  | [] => []
  | x :: t => t.map (fun y => (x, y)) ++ upperPairs t

def corrPV : Option ℚ → PValue
  | some q => PValue.ratV q
  | none => PValue.nanV

/-- `corr.get(a, {}).get(b)`: `none` when a key is missing (the record is
then skipped), `some cell` otherwise (a NaN cell is still emitted). -/
def corrLookup (m : List (String × List (String × Option ℚ))) (a b : String) :
    Option (Option ℚ) :=
  (m.lookup a).bind (fun row => row.lookup b)

/-- The correlation segment of a table's flattened rows: skipped when the
block is absent or falsy-empty; otherwise one record per `(i, j1), j1 > i`
name pair whose `corr.get(a, {}).get(b)` lookup is not `None`. -/
def corrRows (tname : String)
    (corr : Option (List (String × List (String × Option ℚ)))) : List FlatRow :=
  match corr with
  | none => []
  | some m =>
    if m.isEmpty then [] else
    (upperPairs (m.map Prod.fst)).filterMap (fun ab =>
      (corrLookup m ab.1 ab.2).map (fun v =>
        { level := "correlation", table := tname, column := "",
          metric := ab.1 ++ "~" ++ ab.2, value := corrPV v : FlatRow }))

/-- The flattened rows of one column: one `column`-level record per stat key
of the column's stats dict. -/
def colRows (tname : String) (c : String) (cp : ColProfile) : List FlatRow :=
  (statsList cp).map (fun kv =>
    { level := "column", table := tname, column := c, metric := kv.1, value := kv.2 })

/-- The flattened rows of one table. -/
def tableRows (tname : String) (tinfo : TableProfile) : List FlatRow :=
  [{ level := "table", table := tname, column := "", metric := "row_count",
     value := PValue.intV tinfo.row_count }]
  ++ (tinfo.columns.map (fun cp => colRows tname cp.1 cp.2)).flatten
  ++ corrRows tname tinfo.correlation

/-- `profile_to_rows` of `src/dataide/services/profile.py`. -/
def profile_to_rows (profile : List (String × TableProfile)) : List FlatRow :=
  (profile.map (fun p => tableRows p.1 p.2)).flatten

end DataIDE

namespace MainPy

/-!
The second, duplicated entry point: `src/main.py` re-implements
`_coerce_numeric`, `_coerce_datetime`, `compute_profile`, `suggest_charts`
and `profile_to_rows` with the same bodies as the `dataide.services` modules
(local variable names differ; the statements and pandas calls are identical
line by line).  The definitions below are the independent translation of
`src/main.py` lines 362-496; the pandas primitives (`DataIDE.columnsOf`,
`DataIDE.inferDType`, ...) model library behaviour shared by both copies.
-/

open DataIDE (Scalar Cell Row ColumnMeta TableSchema SuggestedChart
  ColProfile TableProfile NumericStats FlatRow PValue)

/-- `_coerce_numeric` of `src/main.py` (same `pd.to_numeric` call). -/
def coerceNumeric (cells : List Cell) : List (Option ℚ) :=
  cells.map DataIDE.coerceNumericCell

/-- `_coerce_datetime` of `src/main.py` (same `pd.to_datetime` call). -/
def coerceDatetime (cells : List Cell) : List (Option ℤ) :=
  cells.map DataIDE.coerceDateCell

/-- The per-column body of `src/main.py`'s `compute_profile`. -/
def profileColumn (rc : ℕ) (ts : Option TableSchema) (colName : String)
    (cells : List Cell) : ColProfile :=
  let nn := cells.countP (fun c => !(DataIDE.isNullCell c))
  let nulls := rc - nn
  let nullPct : ℚ := if rc = 0 then 0 else (nulls : ℚ) / ((max 1 rc : ℕ) : ℚ)
  let hint := DataIDE.hintFor ts colName
  let dt := DataIDE.inferDType cells
  let numeric :=
    if DataIDE.hintIsNumeric hint || DataIDE.isNumericDtype dt then
      let nums := (coerceNumeric cells).filterMap id
      if nums.isEmpty then none else some (DataIDE.numericStats nums)
    else none
  let dates :=
    if DataIDE.hintHasDate hint || DataIDE.strContains "date" (DataIDE.lowerStr colName) then
      let ds := (coerceDatetime cells).filterMap id
      if ds.isEmpty then none
      else some (DataIDE.isoOfDays ((List.insertionSort (· ≤ ·) ds).headD 0),
                 DataIDE.isoOfDays ((List.insertionSort (· ≤ ·) ds).getLastD 0))
    else none
  let tv :=
    if dt == DataIDE.DType.objectD then
      let vc := (DataIDE.valueCounts (cells.map DataIDE.strOfCell)).take 5
      if vc.isEmpty then none else some vc
    else none
  { non_null := nn, nulls := nulls, null_pct := nullPct,
    distinct := (DataIDE.firstSeen (DataIDE.nonNullVals cells)).length,
    numeric := numeric, dates := dates, top_values := tv }

/-- The `df_num` construction of `src/main.py`. -/
def numericCols (rows : List Row) : List (String × List (Option ℚ)) :=
  (DataIDE.columnsOf rows).filterMap (fun c =>
    if (coerceNumeric (DataIDE.colCells rows c)).any Option.isSome
    then some (c, coerceNumeric (DataIDE.colCells rows c)) else none)

/-- The per-table body of `src/main.py`'s `compute_profile`. -/
def profileTable (ts : Option TableSchema) (rows : List Row) : TableProfile :=
  let rc := rows.length
  if rc = 0 then { row_count := 0 } else
  let cols := DataIDE.columnsOf rows
  let columns := cols.map (fun c => (c, profileColumn rc ts c (DataIDE.colCells rows c)))
  let ncols := numericCols rows
  let corr := if 2 ≤ ncols.length then some (DataIDE.corrMatrix ncols) else none
  { row_count := rc, columns := columns, correlation := corr }

/-- `compute_profile` of `src/main.py` (lines 371-443). -/
def compute_profile (sampleRows : List (String × List Row))
    (tables : List TableSchema) : List (String × TableProfile) :=
  sampleRows.map (fun p => (p.1, profileTable (DataIDE.schemaFor tables p.1) p.2))

/-- The per-table body of `src/main.py`'s `suggest_charts`. -/
def tableCharts (tname : String) (rows : List Row) : List SuggestedChart :=
  if rows.isEmpty then [] else
  let cols := DataIDE.columnsOf rows
  let histPart := match cols.find? (fun c => DataIDE.numAnyPred rows c) with
    | some c => [{ title := tname ++ "." ++ c ++ " — distribution",
                   kind := "hist", table := tname, x := c : SuggestedChart }]
    | none => []
  let barPart := match cols.find? (fun c =>
      DataIDE.inferDType (DataIDE.colCells rows c) == DataIDE.DType.objectD
        && (DataIDE.firstSeen ((DataIDE.colCells rows c).map DataIDE.strOfCell)).length ≤ 30) with
    | some c => [{ title := tname ++ "." ++ c ++ " — top categories",
                   kind := "bar", table := tname, x := c : SuggestedChart }]
    | none => []
  let dateCol := cols.find? (fun c =>
    DataIDE.strContains "date" (DataIDE.lowerStr c)
      && (coerceDatetime (DataIDE.colCells rows c)).any Option.isSome)
  let linePart := match dateCol, cols.find? (fun c => DataIDE.numAnyPred rows c) with
    | some dc, some nc =>
      if dc != "" && nc != "" then
        [{ title := tname ++ ": " ++ nc ++ " over " ++ dc,
           kind := "line", table := tname, x := dc, y := some nc : SuggestedChart }]
      else []
    | _, _ => []
  histPart ++ barPart ++ linePart

/-- `suggest_charts` of `src/main.py` (lines 446-476). -/
def suggest_charts (sampleRows : List (String × List Row)) : List SuggestedChart :=
  ((sampleRows.map (fun p => tableCharts p.1 p.2)).flatten).take 6

/-- `profile_to_rows` of `src/main.py` (lines 479-496). -/
def profile_to_rows (profile : List (String × TableProfile)) : List FlatRow :=
  (profile.map (fun p => DataIDE.tableRows p.1 p.2)).flatten

end MainPy

namespace DataIDE

/-! ### Concrete inputs used by the claim witnesses and counterexamples -/

/-- The empty table profile (also the `rows = []` short-circuit result). -/
def emptyTP : TableProfile := { row_count := 0 }

/-- A single numeric-string column with no schema: numeric coercion succeeds
on `"1"` but the column's dtype is object and there is no hint. -/
def rowsNumStr : List Row := [[("a", Scalar.text "1")]]
def srsNumStr : List (String × List Row) := [("t", rowsNumStr)]

/-- A natively numeric single-column table. -/
def rowsNatNum : List Row := [[("a", Scalar.num 1)], [("a", Scalar.num 2)]]
def srsNatNum : List (String × List Row) := [("t", rowsNatNum)]

/-- An object column with one string and two explicit nulls. -/
def rowsNulls : List Row :=
  [[("b", Scalar.text "x")], [("b", Scalar.null)], [("b", Scalar.null)]]
def srsNulls : List (String × List Row) := [("t", rowsNulls)]

/-- Two numeric columns, the first constant (zero variance). -/
def rowsConst : List Row :=
  [[("a", Scalar.num 1), ("b", Scalar.num 1)],
   [("a", Scalar.num 1), ("b", Scalar.num 2)]]
def srsConst : List (String × List Row) := [("t", rowsConst)]

/-- Two perfectly correlated numeric columns. -/
def rowsCorr : List Row :=
  [[("a", Scalar.num 1), ("b", Scalar.num 2)],
   [("a", Scalar.num 2), ("b", Scalar.num 4)],
   [("a", Scalar.num 3), ("b", Scalar.num 6)],
   [("a", Scalar.num 4), ("b", Scalar.num 8)]]
def srsCorr : List (String × List Row) := [("t", rowsCorr)]

/-- A numeric, a categorical, and a date column (chart Scenario E shape). -/
def rowsCharts : List Row :=
  [[("amount", Scalar.num 5), ("cat", Scalar.text "a"), ("order_date", Scalar.text "2025-01-01")],
   [("amount", Scalar.num 7), ("cat", Scalar.text "b"), ("order_date", Scalar.text "2025-03-15")]]
def srsCharts : List (String × List Row) := [("t", rowsCharts)]

/-- An empty column profile, used as a lookup default in closed statements. -/
def emptyCP : ColProfile :=
  { non_null := 0, nulls := 0, null_pct := 0, distinct := 0 }

/-- The profile of a table by name (default `emptyTP`), for closed statements. -/
def tpOf (srs : List (String × List Row)) (tables : List TableSchema)
    (tname : String) : TableProfile :=
  ((compute_profile srs tables).lookup tname).getD emptyTP

/-- The profile of a column by name (default `emptyCP`), for closed statements. -/
def cpOf (tp : TableProfile) (c : String) : ColProfile :=
  (tp.columns.lookup c).getD emptyCP

/-! ### Basic lemmas about the embedding -/

theorem foldl_firstSeen_mem {α : Type} [DecidableEq α] (l : List α) (acc : List α) (a : α) :
    a ∈ l.foldl (fun acc s => if s ∈ acc then acc else acc ++ [s]) acc ↔ a ∈ acc ∨ a ∈ l := by
  induction l generalizing acc with
  | nil => simp
  | cons x t ih =>
    simp only [List.foldl_cons, ih, List.mem_cons]
    by_cases hx : x ∈ acc
    · rw [if_pos hx]
      constructor
      · rintro (h | h)
        · exact Or.inl h
        · exact Or.inr (Or.inr h)
      · rintro (h | rfl | h)
        · exact Or.inl h
        · exact Or.inl hx
        · exact Or.inr h
    · rw [if_neg hx]
      simp only [List.mem_append, List.mem_singleton]
      tauto

theorem foldl_firstSeen_nodup {α : Type} [DecidableEq α] (l : List α) (acc : List α)
    (h : acc.Nodup) :
    (l.foldl (fun acc s => if s ∈ acc then acc else acc ++ [s]) acc).Nodup := by
  induction l generalizing acc with
  | nil => simpa using h
  | cons x t ih =>
    simp only [List.foldl_cons]
    by_cases hx : x ∈ acc
    · rw [if_pos hx]; exact ih acc h
    · rw [if_neg hx]
      exact ih _ (by simp [List.nodup_append, h, hx])

theorem firstSeen_nodup {α : Type} [DecidableEq α] (l : List α) : (firstSeen l).Nodup :=
  foldl_firstSeen_nodup l [] List.nodup_nil

theorem mem_firstSeen {α : Type} [DecidableEq α] (l : List α) (a : α) :
    a ∈ firstSeen l ↔ a ∈ l := by
  unfold firstSeen
  rw [foldl_firstSeen_mem]
  simp

theorem columnsOf_nodup (rows : List Row) : (columnsOf rows).Nodup :=
  firstSeen_nodup _

theorem colCells_length (rows : List Row) (c : String) :
    (colCells rows c).length = rows.length :=
  List.length_map _ _

theorem profileTable_nil (ts : Option TableSchema) : profileTable ts [] = emptyTP := rfl

theorem profileTable_row_count {ts : Option TableSchema} {rows : List Row} (h : rows ≠ []) :
    (profileTable ts rows).row_count = rows.length := by
  unfold profileTable
  rw [if_neg (by simpa using h)]

theorem profileTable_columns {ts : Option TableSchema} {rows : List Row} (h : rows ≠ []) :
    (profileTable ts rows).columns =
      (columnsOf rows).map (fun c => (c, profileColumn rows.length ts c (colCells rows c))) := by
  unfold profileTable
  rw [if_neg (by simpa using h)]

theorem profileTable_correlation {ts : Option TableSchema} {rows : List Row} (h : rows ≠ []) :
    (profileTable ts rows).correlation =
      (if 2 ≤ (numericCols rows).length then some (corrMatrix (numericCols rows)) else none) := by
  unfold profileTable
  rw [if_neg (by simpa using h)]

theorem mem_compute_profile {srs : List (String × List Row)} {tables : List TableSchema}
    {tname : String} {tp : TableProfile} :
    (tname, tp) ∈ compute_profile srs tables ↔
      ∃ rows, (tname, rows) ∈ srs ∧ tp = profileTable (schemaFor tables tname) rows := by
  unfold compute_profile
  rw [List.mem_map]
  constructor
  · rintro ⟨⟨n, rows⟩, hp, heq⟩
    simp only [Prod.mk.injEq] at heq
    obtain ⟨rfl, rfl⟩ := heq
    exact ⟨rows, hp, rfl⟩
  · rintro ⟨rows, hmem, rfl⟩
    exact ⟨(tname, rows), hmem, rfl⟩

theorem mem_profileTable_columns {ts : Option TableSchema} {rows : List Row}
    {c : String} {cp : ColProfile} (h : rows ≠ []) :
    (c, cp) ∈ (profileTable ts rows).columns ↔
      c ∈ columnsOf rows ∧ cp = profileColumn rows.length ts c (colCells rows c) := by
  rw [profileTable_columns h, List.mem_map]
  constructor
  · rintro ⟨c0, hc0, heq⟩
    simp only [Prod.mk.injEq] at heq
    obtain ⟨rfl, rfl⟩ := heq
    exact ⟨hc0, rfl⟩
  · rintro ⟨hc, rfl⟩
    exact ⟨c, hc, rfl⟩

theorem columns_nonempty_of_mem {ts : Option TableSchema} {rows : List Row}
    {c : String} {cp : ColProfile} (h : (c, cp) ∈ (profileTable ts rows).columns) :
    rows ≠ [] := by
  rintro rfl
  simp [profileTable_nil, emptyTP] at h

theorem filterMap_id_eq_nil_iff {α : Type} (l : List (Option α)) :
    l.filterMap id = [] ↔ l.any Option.isSome = false := by
  rw [List.filterMap_eq_nil_iff, List.any_eq_false]
  constructor
  · intro h x hx
    rw [Option.isSome_iff_exists]
    rintro ⟨a, rfl⟩
    exact Option.some_ne_none a (h _ hx)
  · intro h x hx
    have h2 := h x hx
    cases x with
    | none => rfl
    | some a => simp at h2

/-- The numeric block of a column profile, characterised. -/
theorem profileColumn_numeric (rc : ℕ) (ts : Option TableSchema) (colName : String)
    (cells : List Cell) :
    (profileColumn rc ts colName cells).numeric =
      (if hintIsNumeric (hintFor ts colName) || isNumericDtype (inferDType cells) then
        (if ((coerce_numeric cells).filterMap id).isEmpty then none
         else some (numericStats ((coerce_numeric cells).filterMap id)))
       else none) := rfl

theorem profileColumn_numeric_isSome (rc : ℕ) (ts : Option TableSchema) (colName : String)
    (cells : List Cell) :
    (profileColumn rc ts colName cells).numeric.isSome = true ↔
      ((hintIsNumeric (hintFor ts colName) || isNumericDtype (inferDType cells)) = true
        ∧ (coerce_numeric cells).any Option.isSome = true) := by
  rw [profileColumn_numeric]
  by_cases hc : (hintIsNumeric (hintFor ts colName) || isNumericDtype (inferDType cells)) = true
  · rw [if_pos hc]
    by_cases he : ((coerce_numeric cells).filterMap id).isEmpty
    · rw [if_pos he]
      have : (coerce_numeric cells).any Option.isSome = false := by
        rw [← filterMap_id_eq_nil_iff]
        exact List.isEmpty_iff.mp he
      simp [hc, this]
    · rw [if_neg he]
      have : (coerce_numeric cells).any Option.isSome = true := by
        rcases Bool.eq_false_or_eq_true ((coerce_numeric cells).any Option.isSome) with h0 | h0
        · exact h0
        · exact absurd (List.isEmpty_iff.mpr ((filterMap_id_eq_nil_iff _).mpr h0)) he
      simp [hc, this]
  · rw [if_neg hc]
    simp [hc]

/-- The date block of a column profile, characterised. -/
theorem profileColumn_dates (rc : ℕ) (ts : Option TableSchema) (colName : String)
    (cells : List Cell) :
    (profileColumn rc ts colName cells).dates =
      (if hintHasDate (hintFor ts colName) || strContains "date" (lowerStr colName) then
        (if ((coerce_datetime cells).filterMap id).isEmpty then none
         else some (isoOfDays ((List.insertionSort (· ≤ ·) ((coerce_datetime cells).filterMap id)).headD 0),
                    isoOfDays ((List.insertionSort (· ≤ ·) ((coerce_datetime cells).filterMap id)).getLastD 0)))
       else none) := rfl

/-! ### Claim theorems -/

/-- C7: for every table whose sample-rows list is empty, the table profile
produced by `compute_profile` is exactly `{row_count: 0, columns: {}}` with no
correlation block. -/
theorem c7_empty_table (srs : List (String × List Row)) (tables : List TableSchema)
    (tname : String) (h : (tname, ([] : List Row)) ∈ srs) :
    (tname, ({ row_count := 0, columns := [], correlation := none } : TableProfile)) ∈
      compute_profile srs tables := by
  have h2 := List.mem_map_of_mem
    (f := fun p : String × List Row => (p.1, profileTable (schemaFor tables p.1) p.2)) h
  simpa [compute_profile, profileTable_nil, emptyTP] using h2

/-- Witness for C7 at a concrete empty table. -/
theorem c7_empty_table_witness :
    ("t", ({ row_count := 0, columns := [], correlation := none } : TableProfile)) ∈
      compute_profile [("t", ([] : List Row))] [] :=
  c7_empty_table [("t", [])] [] "t" (by decide)

/-- C5: for every column profile emitted by `compute_profile`,
`non_null + nulls = row_count` and `null_pct = nulls / row_count` (the
`row_count = 0` case is vacuous since an empty table emits no column
profiles). -/
theorem c5_null_accounting (srs : List (String × List Row)) (tables : List TableSchema)
    (tname : String) (tp : TableProfile) (c : String) (cp : ColProfile)
    (h1 : (tname, tp) ∈ compute_profile srs tables)
    (h2 : (c, cp) ∈ tp.columns) :
    cp.non_null + cp.nulls = tp.row_count ∧
      cp.null_pct = (cp.nulls : ℚ) / (tp.row_count : ℚ) := by
  obtain ⟨rows, hmem, rfl⟩ := mem_compute_profile.mp h1
  have hne : rows ≠ [] := columns_nonempty_of_mem h2
  obtain ⟨hc, rfl⟩ := (mem_profileTable_columns hne).mp h2
  rw [profileTable_row_count hne]
  have hlen : (colCells rows c).length = rows.length := colCells_length rows c
  have hle : (colCells rows c).countP (fun x => !(isNullCell x)) ≤ rows.length := by
    rw [← hlen]; exact List.countP_le_length _
  have hz : ¬ rows.length = 0 := by simpa using hne
  constructor
  · simp only [profileColumn]
    omega
  · simp only [profileColumn]
    rw [if_neg hz, Nat.max_eq_right (Nat.one_le_iff_ne_zero.mpr hz)]

/-- Witness for C5 at a concrete table with nulls. -/
theorem c5_null_accounting_witness :
    (cpOf (tpOf srsNulls [] "t") "b").non_null + (cpOf (tpOf srsNulls [] "t") "b").nulls
        = (tpOf srsNulls [] "t").row_count
      ∧ (cpOf (tpOf srsNulls [] "t") "b").null_pct
        = ((cpOf (tpOf srsNulls [] "t") "b").nulls : ℚ) / ((tpOf srsNulls [] "t").row_count : ℚ) :=
  c5_null_accounting srsNulls [] "t" (tpOf srsNulls [] "t") "b" (cpOf (tpOf srsNulls [] "t") "b")
    (by decide) (by decide)

/-- The top-values block of a column profile, characterised. -/
theorem profileColumn_top (rc : ℕ) (ts : Option TableSchema) (colName : String)
    (cells : List Cell) :
    (profileColumn rc ts colName cells).top_values =
      (if inferDType cells == DType.objectD then
        (if ((valueCounts (cells.map strOfCell)).take 5).isEmpty then none
         else some ((valueCounts (cells.map strOfCell)).take 5))
       else none) := rfl

theorem firstSeen_ne_nil {α : Type} [DecidableEq α] {l : List α} (h : l ≠ []) :
    firstSeen l ≠ [] := by
  cases l with
  | nil => exact absurd rfl h
  | cons x t =>
    intro hnil
    have := (mem_firstSeen (x :: t) x).mpr (List.mem_cons_self x t)
    rw [hnil] at this
    simp at this

theorem valueCounts_ne_nil {l : List String} (h : l ≠ []) : valueCounts l ≠ [] := by
  unfold valueCounts
  intro hnil
  have hperm := List.perm_insertionSort (fun a b : String × ℕ => b.2 ≤ a.2)
    ((firstSeen l).map (fun k => (k, l.count k)))
  rw [hnil] at hperm
  have := hperm.length_eq
  simp only [List.length_nil, List.length_map] at this
  exact firstSeen_ne_nil h (List.length_eq_zero.mp this.symm)

/-- C2 counterexample: in table `srsNulls` column `"b"` holds one string and
two explicit nulls; the emitted top-values block is `{"None": 2, "x": 1}` —
the key `"None"` with count 2 is not the stringification of any non-null
value (its count among the non-null stringifications is 0), so nulls are not
excluded from stringification and counting as the claim states. -/
theorem c2_counterexample :
    (cpOf (tpOf srsNulls [] "t") "b").top_values = some [("None", 2), ("x", 1)]
    ∧ ((nonNullVals (colCells rowsNulls "b")).map strOfScalar).count "None" = 0 := by decide

/-- C2 (amended): for every column of a profiled table, the top-values block
is present iff the column's dtype is object, and it is the top-5 of the
occurrence counts of the stringification of ALL cells — nulls included (a NaN
stringifies to `"nan"`, an explicit `None` to `"None"`): every entry's count
is the occurrence count of its key among all stringified cells, the entries
are in descending count order, and at most 5 are kept. -/
theorem c2_top_values (srs : List (String × List Row)) (tables : List TableSchema)
    (tname : String) (tp : TableProfile) (c : String) (cp : ColProfile)
    (h1 : (tname, tp) ∈ compute_profile srs tables)
    (h2 : (c, cp) ∈ tp.columns) :
    ∃ rows, (tname, rows) ∈ srs ∧
      (cp.top_values.isSome = true ↔ inferDType (colCells rows c) = DType.objectD)
      ∧ ∀ tv, cp.top_values = some tv →
          tv = (valueCounts ((colCells rows c).map strOfCell)).take 5
          ∧ tv.length ≤ 5
          ∧ (∀ p ∈ tv, p.2 = ((colCells rows c).map strOfCell).count p.1
              ∧ p.1 ∈ (colCells rows c).map strOfCell)
          ∧ List.Sorted (fun a b => b.2 ≤ a.2) tv := by
  obtain ⟨rows, hmem, rfl⟩ := mem_compute_profile.mp h1
  have hne := columns_nonempty_of_mem h2
  obtain ⟨hc, rfl⟩ := (mem_profileTable_columns hne).mp h2
  have hcells : (colCells rows c).map strOfCell ≠ [] := by
    intro hx
    have := congrArg List.length hx
    simp only [List.length_map, colCells_length, List.length_nil] at this
    exact hne (List.length_eq_zero.mp this)
  refine ⟨rows, hmem, ?_, ?_⟩
  · rw [profileColumn_top]
    by_cases hdt : inferDType (colCells rows c) == DType.objectD
    · rw [if_pos hdt]
      have hvc : (valueCounts ((colCells rows c).map strOfCell)).take 5 ≠ [] := by
        intro hx
        rcases List.take_eq_nil_iff.mp hx with h5 | h5
        · exact absurd h5 (by norm_num)
        · exact valueCounts_ne_nil hcells h5
      rw [if_neg (by simpa [List.isEmpty_iff] using hvc)]
      simp only [Option.isSome_some, true_iff]
      exact beq_iff_eq.mp hdt
    · rw [if_neg hdt]
      simp only [Option.isSome_none, Bool.false_eq_true, false_iff]
      intro hx
      exact hdt (beq_iff_eq.mpr hx)
  · intro tv htv
    rw [profileColumn_top] at htv
    have hdt : (inferDType (colCells rows c) == DType.objectD) = true := by
      by_contra hx
      rw [if_neg hx] at htv
      exact Option.noConfusion htv
    rw [if_pos hdt] at htv
    have htv2 : tv = (valueCounts ((colCells rows c).map strOfCell)).take 5 := by
      by_cases hx : ((valueCounts ((colCells rows c).map strOfCell)).take 5).isEmpty
      · rw [if_pos hx] at htv; exact Option.noConfusion htv
      · rw [if_neg hx] at htv; exact (Option.some.injEq _ _ ▸ htv).symm ▸ rfl
    subst htv2
    refine ⟨rfl, List.length_take_le _ _, ?_, ?_⟩
    · intro p hp
      have hp2 : p ∈ valueCounts ((colCells rows c).map strOfCell) :=
        List.take_subset _ _ hp
      have hperm := List.perm_insertionSort (fun a b : String × ℕ => b.2 ≤ a.2)
        ((firstSeen ((colCells rows c).map strOfCell)).map
          (fun k => (k, ((colCells rows c).map strOfCell).count k)))
      have hp3 := hperm.mem_iff.mp hp2
      obtain ⟨k, hk, rfl⟩ := List.mem_map.mp hp3
      exact ⟨rfl, (mem_firstSeen _ _).mp hk⟩
    · have hsorted := List.sorted_insertionSort (fun a b : String × ℕ => b.2 ≤ a.2)
        ((firstSeen ((colCells rows c).map strOfCell)).map
          (fun k => (k, ((colCells rows c).map strOfCell).count k)))
      exact hsorted.sublist (List.take_sublist _ _)

/-- Witness for C2 at a concrete object column with nulls. -/
theorem c2_top_values_witness :
    ∃ rows, ("t", rows) ∈ srsNulls ∧
      ((cpOf (tpOf srsNulls [] "t") "b").top_values.isSome = true ↔
        inferDType (colCells rows "b") = DType.objectD)
      ∧ ∀ tv, (cpOf (tpOf srsNulls [] "t") "b").top_values = some tv →
          tv = (valueCounts ((colCells rows "b").map strOfCell)).take 5
          ∧ tv.length ≤ 5
          ∧ (∀ p ∈ tv, p.2 = ((colCells rows "b").map strOfCell).count p.1
              ∧ p.1 ∈ (colCells rows "b").map strOfCell)
          ∧ List.Sorted (fun a b => b.2 ≤ a.2) tv :=
  c2_top_values srsNulls [] "t" (tpOf srsNulls [] "t") "b" (cpOf (tpOf srsNulls [] "t") "b")
    (by decide) (by decide)

/-! ### Quantile monotonicity -/

theorem headD_eq_getD_zero (l : List ℚ) (d : ℚ) : l.headD d = l.getD 0 d := by
  cases l <;> rfl

theorem getLastD_eq_getD (l : List ℚ) (d : ℚ) : l.getLastD d = l.getD (l.length - 1) d := by
  induction l generalizing d with
  | nil => rfl
  | cons x t ih =>
    cases t with
    | nil => rfl
    | cons y s =>
      rw [List.getLastD_cons, ih x]
      have h1 : (x :: y :: s).length - 1 = s.length + 1 := by simp
      have h2 : (y :: s).length - 1 = s.length := by simp
      rw [h1, h2]
      have hin : s.length < (y :: s).length := by simp
      rw [List.getD_eq_getElem _ _ hin, show (x :: y :: s).getD (s.length + 1) d = (y :: s).getD s.length d from rfl,
        List.getD_eq_getElem _ _ hin]

theorem sorted_getD_mono {v : List ℚ} (hs : List.Sorted (· ≤ ·) v) {i j : ℕ}
    (hij : i ≤ j) (hj : j < v.length) : v.getD i 0 ≤ v.getD j 0 := by
  rcases eq_or_lt_of_le hij with rfl | hlt
  · exact le_refl _
  · have hi : i < v.length := lt_trans hlt hj
    have := List.pairwise_iff_get.mp hs ⟨i, hi⟩ ⟨j, hj⟩ hlt
    rw [List.getD_eq_getElem _ _ hi, List.getD_eq_getElem _ _ hj]
    simpa [List.get_eq_getElem] using this

/-- The interpolation cell is weakly increasing: `v[i] ≤ v[i+1]` with the
`getD` default conventions of `interp`. -/
theorem getD_succ_sub_nonneg {v : List ℚ} (hs : List.Sorted (· ≤ ·) v) (i : ℕ) :
    0 ≤ v.getD (i+1) (v.getD i 0) - v.getD i 0 := by
  by_cases hr : i + 1 < v.length
  · have h2 := sorted_getD_mono hs (Nat.le_succ i) hr
    have he : v.getD (i+1) (v.getD i 0) = v.getD (i+1) 0 := by
      rw [List.getD_eq_getElem _ _ hr, List.getD_eq_getElem _ _ hr]
    rw [he]
    linarith
  · rw [List.getD_eq_default _ _ (by omega)]
    simp

theorem floor_toNat_cast_eq {h : ℚ} (h0 : 0 ≤ h) :
    (((Int.floor h).toNat : ℕ) : ℚ) = ((Int.floor h : ℤ) : ℚ) := by
  have h1 : ((Int.floor h).toNat : ℤ) = Int.floor h :=
    Int.toNat_of_nonneg (Int.floor_nonneg.mpr h0)
  exact_mod_cast congrArg (fun z : ℤ => (z : ℚ)) h1

theorem floor_toNat_le {h : ℚ} (h0 : 0 ≤ h) : (((Int.floor h).toNat : ℕ) : ℚ) ≤ h := by
  rw [floor_toNat_cast_eq h0]
  exact Int.floor_le h

theorem lt_floor_toNat_add_one {h : ℚ} (h0 : 0 ≤ h) :
    h < (((Int.floor h).toNat : ℕ) : ℚ) + 1 := by
  rw [floor_toNat_cast_eq h0]
  exact Int.lt_floor_add_one h

theorem interp_bounds {v : List ℚ} (hs : List.Sorted (· ≤ ·) v) {h : ℚ} (h0 : 0 ≤ h) :
    v.getD (Int.floor h).toNat 0 ≤ interp v h
      ∧ interp v h ≤ v.getD ((Int.floor h).toNat + 1) (v.getD (Int.floor h).toNat 0) := by
  have hg0 : 0 ≤ h - (((Int.floor h).toNat : ℕ) : ℚ) := by linarith [floor_toNat_le h0]
  have hg1 : h - (((Int.floor h).toNat : ℕ) : ℚ) ≤ 1 := by linarith [lt_floor_toNat_add_one h0]
  have hd := getD_succ_sub_nonneg hs (Int.floor h).toNat
  unfold interp
  constructor
  · nlinarith
  · nlinarith

theorem interp_mono {v : List ℚ} (hs : List.Sorted (· ≤ ·) v) (hne : v ≠ [])
    {h1 h2 : ℚ} (h0 : 0 ≤ h1) (h12 : h1 ≤ h2) (hub : h2 ≤ (v.length : ℚ) - 1) :
    interp v h1 ≤ interp v h2 := by
  have hn1 : 1 ≤ v.length := List.length_pos.mpr hne
  have h02 : 0 ≤ h2 := le_trans h0 h12
  have hile : (Int.floor h1).toNat ≤ (Int.floor h2).toNat :=
    Int.toNat_le_toNat (Int.floor_le_floor h12)
  have hi2ub : (Int.floor h2).toNat ≤ v.length - 1 := by
    have hcast : ((v.length - 1 : ℕ) : ℚ) = (v.length : ℚ) - 1 := by
      push_cast [hn1]
      ring
    have hfl : ⌊h2⌋ ≤ ⌊((v.length - 1 : ℕ) : ℚ)⌋ :=
      Int.floor_le_floor (by rw [hcast]; exact hub)
    rw [Int.floor_natCast] at hfl
    exact le_trans (Int.toNat_le_toNat hfl) (by simp)
  have hi2lt : (Int.floor h2).toNat < v.length := by omega
  have hi1lt : (Int.floor h1).toNat < v.length := lt_of_le_of_lt hile hi2lt
  rcases eq_or_lt_of_le hile with heq | hlt
  · -- same cell: compare interpolation weights
    unfold interp
    rw [← heq]
    have hdiff := getD_succ_sub_nonneg hs (Int.floor h1).toNat
    have hgle : h1 - (((Int.floor h1).toNat : ℕ) : ℚ) ≤ h2 - (((Int.floor h1).toNat : ℕ) : ℚ) := by
      linarith
    nlinarith [mul_le_mul_of_nonneg_right hgle hdiff]
  · -- different cells: interp h1 ≤ v[i1+1] ≤ v[i2] ≤ interp h2
    have hb1 := (interp_bounds hs h0).2
    have hb2 := (interp_bounds hs h02).1
    have hr1 : (Int.floor h1).toNat + 1 < v.length := by omega
    have step1 : interp v h1 ≤ v.getD ((Int.floor h1).toNat + 1) 0 := by
      have he : v.getD ((Int.floor h1).toNat + 1) (v.getD (Int.floor h1).toNat 0)
          = v.getD ((Int.floor h1).toNat + 1) 0 := by
        rw [List.getD_eq_getElem _ _ hr1, List.getD_eq_getElem _ _ hr1]
      rw [← he]
      exact hb1
    have step2 : v.getD ((Int.floor h1).toNat + 1) 0 ≤ v.getD (Int.floor h2).toNat 0 :=
      sorted_getD_mono hs (by omega) hi2lt
    exact le_trans (le_trans step1 step2) hb2

theorem insertionSort_sorted_rat (nums : List ℚ) :
    List.Sorted (· ≤ ·) (List.insertionSort (· ≤ ·) nums) :=
  List.sorted_insertionSort _ _

theorem insertionSort_length_rat (nums : List ℚ) :
    (List.insertionSort (· ≤ ·) nums).length = nums.length :=
  (List.perm_insertionSort _ _).length_eq

/-- The order statistics of `numericStats` form a monotone chain. -/
theorem numericStats_order {nums : List ℚ} (h : nums ≠ []) :
    (numericStats nums).min ≤ (numericStats nums).p25
    ∧ (numericStats nums).p25 ≤ (numericStats nums).p50
    ∧ (numericStats nums).p50 ≤ (numericStats nums).p75
    ∧ (numericStats nums).p75 ≤ (numericStats nums).max := by
  have hs := insertionSort_sorted_rat nums
  have hlen := insertionSort_length_rat nums
  set sorted := List.insertionSort (· ≤ ·) nums with hsorted
  have hne : sorted ≠ [] := by
    intro hx
    rw [hx] at hlen
    exact h (List.length_eq_zero.mp hlen.symm)
  have hn1 : 1 ≤ sorted.length := List.length_pos.mpr hne
  have hnn : (0 : ℚ) ≤ (sorted.length : ℚ) - 1 := by
    have : (1 : ℚ) ≤ (sorted.length : ℚ) := by exact_mod_cast hn1
    linarith
  have hmin : (numericStats nums).min = interp sorted 0 := by
    show sorted.headD 0 = interp sorted 0
    rw [headD_eq_getD_zero]
    unfold interp
    norm_num
  have hmax : (numericStats nums).max = interp sorted ((sorted.length : ℚ) - 1) := by
    show sorted.getLastD 0 = interp sorted ((sorted.length : ℚ) - 1)
    rw [getLastD_eq_getD]
    unfold interp
    have hcast : ((sorted.length - 1 : ℕ) : ℚ) = (sorted.length : ℚ) - 1 := by
      push_cast [hn1]; ring
    rw [← hcast, Int.floor_natCast]
    simp
  have e25 : (numericStats nums).p25 = quantileOf sorted (1/4) := rfl
  have e50 : (numericStats nums).p50 = quantileOf sorted (1/2) := rfl
  have e75 : (numericStats nums).p75 = quantileOf sorted (3/4) := rfl
  rw [hmin, hmax, e25, e50, e75]
  unfold quantileOf
  refine ⟨?_, ?_, ?_, ?_⟩
  · exact interp_mono hs hne (le_refl 0) (by nlinarith) (by nlinarith)
  · exact interp_mono hs hne (by nlinarith) (by nlinarith) (by nlinarith)
  · exact interp_mono hs hne (by nlinarith) (by nlinarith) (by nlinarith)
  · exact interp_mono hs hne (by nlinarith) (by nlinarith) (by nlinarith)

/-- C6: for every numeric block emitted by `compute_profile`, the quantile
summary computed by linear interpolation over the coerced non-null values is
ordered: `min ≤ p25 ≤ p50 ≤ p75 ≤ max`. -/
theorem c6_quantile_order (srs : List (String × List Row)) (tables : List TableSchema)
    (tname : String) (tp : TableProfile) (c : String) (cp : ColProfile) (nb : NumericStats)
    (h1 : (tname, tp) ∈ compute_profile srs tables)
    (h2 : (c, cp) ∈ tp.columns)
    (h3 : cp.numeric = some nb) :
    nb.min ≤ nb.p25 ∧ nb.p25 ≤ nb.p50 ∧ nb.p50 ≤ nb.p75 ∧ nb.p75 ≤ nb.max := by
  obtain ⟨rows, hmem, rfl⟩ := mem_compute_profile.mp h1
  have hne := columns_nonempty_of_mem h2
  obtain ⟨hc, rfl⟩ := (mem_profileTable_columns hne).mp h2
  rw [profileColumn_numeric] at h3
  by_cases hcond : (hintIsNumeric (hintFor (schemaFor tables tname) c)
      || isNumericDtype (inferDType (colCells rows c))) = true
  · rw [if_pos hcond] at h3
    by_cases hemp : ((coerce_numeric (colCells rows c)).filterMap id).isEmpty
    · rw [if_pos hemp] at h3
      exact Option.noConfusion h3
    · rw [if_neg hemp] at h3
      have hnb : nb = numericStats ((coerce_numeric (colCells rows c)).filterMap id) :=
        (Option.some.injEq _ _ ▸ h3).symm ▸ rfl
      subst hnb
      exact numericStats_order (by simpa [List.isEmpty_iff] using hemp)
  · rw [if_neg hcond] at h3
    exact Option.noConfusion h3

/-- Witness for C6 at a concrete numeric table. -/
theorem c6_quantile_order_witness :
    ((cpOf (tpOf srsCorr [] "t") "a").numeric.getD (numericStats [])).min
        ≤ ((cpOf (tpOf srsCorr [] "t") "a").numeric.getD (numericStats [])).p25
    ∧ ((cpOf (tpOf srsCorr [] "t") "a").numeric.getD (numericStats [])).p25
        ≤ ((cpOf (tpOf srsCorr [] "t") "a").numeric.getD (numericStats [])).p50
    ∧ ((cpOf (tpOf srsCorr [] "t") "a").numeric.getD (numericStats [])).p50
        ≤ ((cpOf (tpOf srsCorr [] "t") "a").numeric.getD (numericStats [])).p75
    ∧ ((cpOf (tpOf srsCorr [] "t") "a").numeric.getD (numericStats [])).p75
        ≤ ((cpOf (tpOf srsCorr [] "t") "a").numeric.getD (numericStats [])).max :=
  c6_quantile_order srsCorr [] "t" (tpOf srsCorr [] "t") "a" (cpOf (tpOf srsCorr [] "t") "a")
    ((cpOf (tpOf srsCorr [] "t") "a").numeric.getD (numericStats []))
    (by decide) (by decide) (by decide)

/-! ### Flattener support lemmas -/

theorem compute_profile_fst (srs : List (String × List Row)) (tables : List TableSchema) :
    (compute_profile srs tables).map Prod.fst = srs.map Prod.fst := by
  simp [compute_profile]

theorem filter_flatten {α : Type} (p : α → Bool) (l : List (List α)) :
    (l.flatten).filter p = (l.map (List.filter p)).flatten := by
  induction l with
  | nil => rfl
  | cons x t ih => simp [List.filter_append, ih]

/-- Every record of a table's flattened block carries that table's name. -/
theorem mem_tableRows_table {tname : String} {tinfo : TableProfile} {r : FlatRow}
    (h : r ∈ tableRows tname tinfo) : r.table = tname := by
  unfold tableRows at h
  rcases List.mem_append.mp h with h1 | h1
  · rcases List.mem_append.mp h1 with h2 | h2
    · simp only [List.mem_singleton] at h2
      rw [h2]
    · obtain ⟨sub, hsub, hr⟩ := List.mem_flatten.mp h2
      obtain ⟨cp, _, rfl⟩ := List.mem_map.mp hsub
      obtain ⟨kv, _, rfl⟩ := List.mem_map.mp hr
      rfl
  · rcases hm : tinfo.correlation with _ | m
    · rw [hm] at h1
      simp [corrRows] at h1
    · rw [hm] at h1
      simp only [corrRows] at h1
      by_cases hemp : m.isEmpty
      · rw [if_pos hemp] at h1; simp at h1
      · rw [if_neg hemp] at h1
        obtain ⟨ab, _, hab⟩ := List.mem_filterMap.mp h1
        obtain ⟨v, _, rfl⟩ := Option.map_eq_some'.mp hab
        rfl

/-- Flattening a keyed list where only one key contributes: every other
entry's block is empty and the keyed entry is unique. -/
theorem flatten_eq_single {γ β : Type} {l : List (String × γ)} {tname : String} {tp : γ}
    {f : String × γ → List β}
    (hnd : (l.map Prod.fst).Nodup) (hmem : (tname, tp) ∈ l)
    (hother : ∀ q ∈ l, q.1 ≠ tname → f q = []) :
    (l.map f).flatten = f (tname, tp) := by
  induction l with
  | nil => simp at hmem
  | cons q t ih =>
    simp only [List.map_cons, List.nodup_cons] at hnd
    rcases List.mem_cons.mp hmem with heq | hmem2
    · subst heq
      simp only [List.map_cons, List.flatten_cons]
      have hrest : ∀ x ∈ t.map f, x = [] := by
        intro x hx
        obtain ⟨q2, hq2, rfl⟩ := List.mem_map.mp hx
        refine hother q2 (List.mem_cons_of_mem _ hq2) ?_
        intro hq2eq
        have hmm : q2.1 ∈ t.map Prod.fst := List.mem_map_of_mem Prod.fst hq2
        exact hnd.1 (hq2eq ▸ hmm)
      rw [List.flatten_eq_nil_iff.mpr hrest, List.append_nil]
    · have hq1 : q.1 ≠ tname := by
        intro hq1
        have hmm : (tname, tp).1 ∈ t.map Prod.fst := List.mem_map_of_mem Prod.fst hmem2
        exact hnd.1 (hq1 ▸ hmm)
      simp only [List.map_cons, List.flatten_cons]
      rw [hother q (List.mem_cons_self _ _) hq1, List.nil_append]
      exact ih hnd.2 hmem2 (fun q2 hq2 hne => hother q2 (List.mem_cons_of_mem _ hq2) hne)

/-- Looking a key up in a list mapped with a key-preserving function. -/
theorem lookup_map_keyed {γ β : Type} (l : List (String × γ)) (f : String × γ → β) (a : String) :
    ((l.map (fun x => (x.1, f x))).lookup a) = (l.lookup a).map (fun v => f (a, v)) := by
  induction l with
  | nil => rfl
  | cons x t ih =>
    simp only [List.map_cons, List.lookup]
    cases hx : a == x.1 with
    | true =>
      have ha : a = x.1 := beq_iff_eq.mp hx
      subst ha
      rfl
    | false => exact ih

theorem lookup_isSome_of_mem_keys {γ : Type} {l : List (String × γ)} {a : String}
    (h : a ∈ l.map Prod.fst) : (l.lookup a).isSome = true := by
  induction l with
  | nil => simp at h
  | cons x t ih =>
    simp only [List.map_cons, List.mem_cons] at h
    simp only [List.lookup]
    cases hx : a == x.1 with
    | true => rfl
    | false =>
      rcases h with h | h
      · exact absurd (beq_iff_eq.mpr h) (by simp [hx])
      · exact ih h

/-- `corr.get(a, {}).get(b)` on a built correlation matrix. -/
theorem corrLookup_corrMatrix (ncols : List (String × List (Option ℚ))) (a b : String) :
    corrLookup (corrMatrix ncols) a b =
      (ncols.lookup a).bind (fun xs => (ncols.lookup b).map (fun ys => corrCell xs ys)) := by
  unfold corrLookup corrMatrix
  rw [lookup_map_keyed ncols (fun x => ncols.map (fun y => (y.1, corrCell x.2 y.2))) a]
  cases ncols.lookup a with
  | none => rfl
  | some xs =>
    simp only [Option.map_some', Option.some_bind]
    rw [lookup_map_keyed ncols (fun y => corrCell xs y.2) b]

theorem corrLookup_corrMatrix_isSome {ncols : List (String × List (Option ℚ))} {a b : String}
    (ha : a ∈ ncols.map Prod.fst) (hb : b ∈ ncols.map Prod.fst) :
    (corrLookup (corrMatrix ncols) a b).isSome = true := by
  rw [corrLookup_corrMatrix]
  obtain ⟨xs, hxs⟩ := Option.isSome_iff_exists.mp (lookup_isSome_of_mem_keys ha)
  obtain ⟨ys, hys⟩ := Option.isSome_iff_exists.mp (lookup_isSome_of_mem_keys hb)
  rw [hxs, hys]
  rfl

theorem mem_upperPairs {α : Type} {l : List α} {ab : α × α} (h : ab ∈ upperPairs l) :
    ab.1 ∈ l ∧ ab.2 ∈ l := by
  induction l with
  | nil => simp [upperPairs] at h
  | cons x t ih =>
    unfold upperPairs at h
    rcases List.mem_append.mp h with h1 | h1
    · obtain ⟨y, hy, rfl⟩ := List.mem_map.mp h1
      exact ⟨List.mem_cons_self _ _, List.mem_cons_of_mem _ hy⟩
    · obtain ⟨h2, h3⟩ := ih h1
      exact ⟨List.mem_cons_of_mem _ h2, List.mem_cons_of_mem _ h3⟩

theorem filterMap_eq_map_of_isSome {α β γ : Type} (d : β) {l : List α} {g : α → Option β}
    {mk : α → β → γ} (h : ∀ a ∈ l, (g a).isSome = true) :
    l.filterMap (fun a => (g a).map (mk a)) = l.map (fun a => mk a ((g a).getD d)) := by
  induction l with
  | nil => rfl
  | cons x t ih =>
    have hx := h x (List.mem_cons_self _ _)
    obtain ⟨v, hv⟩ := Option.isSome_iff_exists.mp hx
    rw [List.filterMap_cons, List.map_cons, hv]
    simp only [Option.map_some', Option.getD_some]
    rw [ih (fun a ha => h a (List.mem_cons_of_mem _ ha))]

theorem map_fst_filterMap_if {κ γ : Type} (cols : List κ) (p : κ → Bool) (h : κ → List γ) :
    (cols.filterMap (fun c => if p c then some (c, h c) else none)).map Prod.fst
      = cols.filter p := by
  induction cols with
  | nil => rfl
  | cons c t ih =>
    by_cases hc : p c
    · simp [List.filterMap_cons, List.filter_cons, hc, ih]
    · simp [List.filterMap_cons, List.filter_cons, hc, ih]

/-- The names of the numeric-coercible columns are the coercible subset of
the table's columns, in order. -/
theorem numericCols_fst (rows : List Row) :
    (numericCols rows).map Prod.fst =
      (columnsOf rows).filter (fun c => (coerce_numeric (colCells rows c)).any Option.isSome) := by
  unfold numericCols
  exact map_fst_filterMap_if _ _ _

theorem corrMatrix_fst (ncols : List (String × List (Option ℚ))) :
    (corrMatrix ncols).map Prod.fst = ncols.map Prod.fst := by
  unfold corrMatrix
  rw [List.map_map]
  rfl

theorem columns_fst {ts : Option TableSchema} {rows : List Row} (h : rows ≠ []) :
    (profileTable ts rows).columns.map Prod.fst = columnsOf rows := by
  rw [profileTable_columns h, List.map_map]
  exact List.map_id _

theorem mem_colRows {tname c : String} {cp : ColProfile} {r : FlatRow}
    (h : r ∈ colRows tname c cp) :
    r.level = "column" ∧ r.table = tname ∧ r.column = c := by
  obtain ⟨kv, _, rfl⟩ := List.mem_map.mp h
  exact ⟨rfl, rfl, rfl⟩

theorem mem_corrRows {tname : String} {corr : Option (List (String × List (String × Option ℚ)))}
    {r : FlatRow} (h : r ∈ corrRows tname corr) :
    r.level = "correlation" ∧ r.table = tname := by
  rcases corr with _ | m
  · simp [corrRows] at h
  · simp only [corrRows] at h
    by_cases hemp : m.isEmpty
    · rw [if_pos hemp] at h; simp at h
    · rw [if_neg hemp] at h
      obtain ⟨ab, _, hab⟩ := List.mem_filterMap.mp h
      obtain ⟨v, _, rfl⟩ := Option.map_eq_some'.mp hab
      exact ⟨rfl, rfl⟩

/-- The `table`-level records of one table's block: exactly the one
`row_count` record. -/
theorem tableRows_filter_table (tname : String) (tp : TableProfile) :
    (tableRows tname tp).filter (fun r => r.level == "table" && r.table == tname)
      = [{ level := "table", table := tname, column := "", metric := "row_count",
           value := PValue.intV tp.row_count }] := by
  unfold tableRows
  rw [List.filter_append, List.filter_append]
  have h2 : ((tp.columns.map (fun cp => colRows tname cp.1 cp.2)).flatten).filter
      (fun r => r.level == "table" && r.table == tname) = [] := by
    rw [List.filter_eq_nil_iff]
    intro r hr
    obtain ⟨sub, hsub, hrr⟩ := List.mem_flatten.mp hr
    obtain ⟨cp, _, rfl⟩ := List.mem_map.mp hsub
    have := (mem_colRows hrr).1
    simp [this]
  have h3 : (corrRows tname tp.correlation).filter
      (fun r => r.level == "table" && r.table == tname) = [] := by
    rw [List.filter_eq_nil_iff]
    intro r hr
    have := (mem_corrRows hr).1
    simp [this]
  rw [h2, h3]
  simp

/-- The `column`-level records of one table's block for one column: exactly
one record per stat key of that column's profile. -/
theorem tableRows_filter_column (tname : String) (tp : TableProfile) (c : String)
    (cp : ColProfile) (hnd : (tp.columns.map Prod.fst).Nodup)
    (hmem : (c, cp) ∈ tp.columns) :
    (tableRows tname tp).filter
        (fun r => r.level == "column" && r.table == tname && r.column == c)
      = colRows tname c cp := by
  unfold tableRows
  rw [List.filter_append, List.filter_append]
  have h1 : ([{ level := "table", table := tname, column := "",
                metric := "row_count", value := PValue.intV tp.row_count }]
      : List FlatRow).filter
      (fun r => r.level == "column" && r.table == tname && r.column == c) = [] := by
    simp
  have h3 : (corrRows tname tp.correlation).filter
      (fun r => r.level == "column" && r.table == tname && r.column == c) = [] := by
    rw [List.filter_eq_nil_iff]
    intro r hr
    have := (mem_corrRows hr).1
    simp [this]
  have h2 : ((tp.columns.map (fun cp => colRows tname cp.1 cp.2)).flatten).filter
      (fun r => r.level == "column" && r.table == tname && r.column == c)
      = colRows tname c cp := by
    rw [filter_flatten, List.map_map]
    have hstep : (tp.columns.map
        ((List.filter (fun r => r.level == "column" && r.table == tname && r.column == c))
          ∘ (fun cp => colRows tname cp.1 cp.2))).flatten
        = (fun q : String × ColProfile =>
            (colRows tname q.1 q.2).filter
              (fun r => r.level == "column" && r.table == tname && r.column == c)) (c, cp) :=
      flatten_eq_single hnd hmem (by
        intro q hq hne
        simp only [Function.comp]
        rw [List.filter_eq_nil_iff]
        intro r hr
        have hcol := (mem_colRows hr).2.2
        simp only [Bool.and_eq_true, beq_iff_eq]
        rintro ⟨-, hc⟩
        exact hne (by rw [← hcol, hc]))
    rw [hstep]
    exact List.filter_eq_self.mpr (by
      intro r hr
      obtain ⟨h1', h2', h3'⟩ := mem_colRows hr
      simp [h1', h2', h3'])
  rw [h1, h2, h3]
  simp

/-- The `correlation`-level records of one table's block: exactly one record
per `(i, j), i < j` pair of matrix keys, provided every pairwise lookup
succeeds; neither the diagonal nor the mirrored pair is ever produced. -/
theorem tableRows_filter_corr (tname : String) (tp : TableProfile)
    (m : List (String × List (String × Option ℚ))) (hm : tp.correlation = some m)
    (hcomp : ∀ ab ∈ upperPairs (m.map Prod.fst), (corrLookup m ab.1 ab.2).isSome = true) :
    (tableRows tname tp).filter (fun r => r.level == "correlation" && r.table == tname)
      = (upperPairs (m.map Prod.fst)).map (fun ab =>
          { level := "correlation", table := tname, column := "",
            metric := ab.1 ++ "~" ++ ab.2,
            value := corrPV ((corrLookup m ab.1 ab.2).getD none) }) := by
  unfold tableRows
  rw [List.filter_append, List.filter_append]
  have h1 : ([{ level := "table", table := tname, column := "",
                metric := "row_count", value := PValue.intV tp.row_count }]
      : List FlatRow).filter
      (fun r => r.level == "correlation" && r.table == tname) = [] := by
    simp
  have h2 : ((tp.columns.map (fun cp => colRows tname cp.1 cp.2)).flatten).filter
      (fun r => r.level == "correlation" && r.table == tname) = [] := by
    rw [List.filter_eq_nil_iff]
    intro r hr
    obtain ⟨sub, hsub, hrr⟩ := List.mem_flatten.mp hr
    obtain ⟨cp, _, rfl⟩ := List.mem_map.mp hsub
    have := (mem_colRows hrr).1
    simp [this]
  rw [h1, h2, hm]
  simp only [List.nil_append]
  by_cases hemp : m.isEmpty
  · have hm0 : m = [] := List.isEmpty_iff.mp hemp
    subst hm0
    simp [corrRows, upperPairs]
  · simp only [corrRows, if_neg hemp]
    rw [filterMap_eq_map_of_isSome none hcomp]
    rw [List.filter_eq_self.mpr]
    intro r hr
    obtain ⟨ab, _, rfl⟩ := List.mem_map.mp hr
    simp

theorem pred2_false_of_table_ne {r : FlatRow} {tname lev : String} (hr : r.table ≠ tname) :
    (r.level == lev && r.table == tname) = false := by
  have hbe : (r.table == tname) = false := beq_eq_false_iff_ne.mpr hr
  simp [hbe]

theorem pred3_false_of_table_ne {r : FlatRow} {tname lev c : String} (hr : r.table ≠ tname) :
    (r.level == lev && r.table == tname && r.column == c) = false := by
  have hbe : (r.table == tname) = false := beq_eq_false_iff_ne.mpr hr
  simp [hbe]

/-- Any level-and-table filter of the full flattened output reduces to the
same filter of the named table's block, when table names are distinct. -/
theorem profile_filter_single {srs : List (String × List Row)} {tables : List TableSchema}
    {tname : String} {tp : TableProfile} {pred : FlatRow → Bool}
    (hnd : (srs.map Prod.fst).Nodup)
    (hmem : (tname, tp) ∈ compute_profile srs tables)
    (hpred : ∀ r : FlatRow, r.table ≠ tname → pred r = false) :
    (profile_to_rows (compute_profile srs tables)).filter pred
      = (tableRows tname tp).filter pred := by
  have hnd2 : ((compute_profile srs tables).map Prod.fst).Nodup := by
    rw [compute_profile_fst]
    exact hnd
  unfold profile_to_rows
  rw [filter_flatten, List.map_map]
  exact flatten_eq_single hnd2 hmem (by
    intro q hq hne
    simp only [Function.comp]
    rw [List.filter_eq_nil_iff]
    intro r hr
    have := mem_tableRows_table hr
    simp only [Bool.not_eq_true]
    exact hpred r (by rw [this]; exact hne))

/-- C8: for every profiling summary produced by `compute_profile` (table
names are dict keys, hence distinct), the flattened output contains exactly
one `table`-level `row_count` record per table, exactly one `column`-level
record per (column, stat-key) pair present in that column's profile, and,
when a correlation block exists, exactly one `correlation`-level record per
unordered pair of distinct columns (`i < j` in iteration order) with metric
`"colA~colB"`; the diagonal and the mirrored pair are never emitted. -/
theorem c8_flattener (srs : List (String × List Row)) (tables : List TableSchema)
    (hnd : (srs.map Prod.fst).Nodup) (tname : String) (tp : TableProfile)
    (hmem : (tname, tp) ∈ compute_profile srs tables) :
    (profile_to_rows (compute_profile srs tables)).filter
        (fun r => r.level == "table" && r.table == tname)
      = [{ level := "table", table := tname, column := "", metric := "row_count",
           value := PValue.intV tp.row_count }]
    ∧ (∀ c cp, (c, cp) ∈ tp.columns →
        (profile_to_rows (compute_profile srs tables)).filter
            (fun r => r.level == "column" && r.table == tname && r.column == c)
          = (statsList cp).map (fun kv =>
              { level := "column", table := tname, column := c,
                metric := kv.1, value := kv.2 }))
    ∧ (∀ m, tp.correlation = some m →
        ((profile_to_rows (compute_profile srs tables)).filter
            (fun r => r.level == "correlation" && r.table == tname)
          = (upperPairs (m.map Prod.fst)).map (fun ab =>
              { level := "correlation", table := tname, column := "",
                metric := ab.1 ++ "~" ++ ab.2,
                value := corrPV ((corrLookup m ab.1 ab.2).getD none) })
        ∧ ∀ ab ∈ upperPairs (m.map Prod.fst), (corrLookup m ab.1 ab.2).isSome = true)) := by
  obtain ⟨rows, hrows, htp⟩ := mem_compute_profile.mp hmem
  refine ⟨?_, ?_, ?_⟩
  · rw [profile_filter_single hnd hmem (fun r hr => pred2_false_of_table_ne hr)]
    exact tableRows_filter_table tname tp
  · intro c cp hcp
    have hcp2 : (c, cp) ∈ (profileTable (schemaFor tables tname) rows).columns := htp ▸ hcp
    have hne : rows ≠ [] := columns_nonempty_of_mem hcp2
    have hndc : (tp.columns.map Prod.fst).Nodup := by
      rw [htp, columns_fst hne]
      exact columnsOf_nodup rows
    rw [profile_filter_single hnd hmem (fun r hr => pred3_false_of_table_ne hr)]
    exact tableRows_filter_column tname tp c cp hndc hcp
  · intro m hm
    have hne : rows ≠ [] := by
      intro hx
      rw [htp, hx, profileTable_nil] at hm
      exact Option.noConfusion hm
    have hmm : m = corrMatrix (numericCols rows) := by
      rw [htp, profileTable_correlation hne] at hm
      by_cases hlen : 2 ≤ (numericCols rows).length
      · rw [if_pos hlen] at hm
        exact (Option.some.injEq _ _ ▸ hm).symm ▸ rfl
      · rw [if_neg hlen] at hm
        exact Option.noConfusion hm
    have hcomp : ∀ ab ∈ upperPairs (m.map Prod.fst), (corrLookup m ab.1 ab.2).isSome = true := by
      intro ab hab
      obtain ⟨ha, hb⟩ := mem_upperPairs hab
      rw [hmm, corrMatrix_fst] at ha hb
      rw [hmm]
      exact corrLookup_corrMatrix_isSome ha hb
    refine ⟨?_, hcomp⟩
    rw [profile_filter_single hnd hmem (fun r hr => pred2_false_of_table_ne hr)]
    exact tableRows_filter_corr tname tp m hm hcomp

/-- Witness for C8 at a concrete two-numeric-column table. -/
theorem c8_flattener_witness :
    (profile_to_rows (compute_profile srsCorr [])).filter
        (fun r => r.level == "table" && r.table == "t")
      = [{ level := "table", table := "t", column := "", metric := "row_count",
           value := PValue.intV (tpOf srsCorr [] "t").row_count }]
    ∧ (profile_to_rows (compute_profile srsCorr [])).filter
        (fun r => r.level == "column" && r.table == "t" && r.column == "a")
      = (statsList (cpOf (tpOf srsCorr [] "t") "a")).map (fun kv =>
          { level := "column", table := "t", column := "a", metric := kv.1, value := kv.2 })
    ∧ (profile_to_rows (compute_profile srsCorr [])).filter
        (fun r => r.level == "correlation" && r.table == "t")
      = (upperPairs (((tpOf srsCorr [] "t").correlation.getD []).map Prod.fst)).map (fun ab =>
          { level := "correlation", table := "t", column := "",
            metric := ab.1 ++ "~" ++ ab.2,
            value := corrPV ((corrLookup ((tpOf srsCorr [] "t").correlation.getD []) ab.1 ab.2).getD none) }) := by
  obtain ⟨h1, h2, h3⟩ := c8_flattener srsCorr [] (by decide) "t" (tpOf srsCorr [] "t") (by decide)
  exact ⟨h1,
    h2 "a" (cpOf (tpOf srsCorr [] "t") "a") (by decide),
    (h3 ((tpOf srsCorr [] "t").correlation.getD []) (by decide)).1⟩

/-! ### Integer square root: specification -/

theorem isqrtFuel_spec : ∀ fuel n, n ≤ fuel →
    (isqrtFuel fuel n) * (isqrtFuel fuel n) ≤ n
      ∧ n < (isqrtFuel fuel n + 1) * (isqrtFuel fuel n + 1) := by
  intro fuel
  induction fuel with
  | zero =>
    intro n hn
    have : n = 0 := Nat.le_zero.mp hn
    subst this
    simp [isqrtFuel]
  | succ f ih =>
    intro n hn
    by_cases h2 : n < 2
    · unfold isqrtFuel
      rw [if_pos h2]
      interval_cases n <;> simp
    · unfold isqrtFuel
      rw [if_neg h2]
      have hfuel : n / 4 ≤ f := by
        have hlt : n / 4 < n := Nat.div_lt_self (by omega) (by omega)
        omega
      obtain ⟨hlo, hhi⟩ := ih (n / 4) hfuel
      have hup : n < 4 * ((isqrtFuel f (n / 4) + 1) * (isqrtFuel f (n / 4) + 1)) := by
        have h5 := (Nat.div_lt_iff_lt_mul (by omega : 0 < 4)).mp hhi
        linarith
      have hdn : 4 * (isqrtFuel f (n / 4) * isqrtFuel f (n / 4)) ≤ n := by
        have h4 : isqrtFuel f (n / 4) * isqrtFuel f (n / 4) * 4 ≤ n :=
          (Nat.le_div_iff_mul_le (by omega : 0 < 4)).mp hlo
        linarith
      by_cases hc : (2 * isqrtFuel f (n / 4) + 1) * (2 * isqrtFuel f (n / 4) + 1) ≤ n
      · rw [if_pos hc]
        constructor
        · exact hc
        · nlinarith [hup]
      · rw [if_neg hc]
        constructor
        · nlinarith [hdn]
        · omega

theorem isqrt_spec (n : ℕ) :
    (isqrt n) * (isqrt n) ≤ n ∧ n < (isqrt n + 1) * (isqrt n + 1) :=
  isqrtFuel_spec n n le_rfl

theorem isqrt_le_of_le_sq {m K : ℕ} (h : m ≤ K * K) : isqrt m ≤ K := by
  by_contra hx
  have h1 : K + 1 ≤ isqrt m := by omega
  have h2 := (isqrt_spec m).1
  nlinarith

theorem isqrt_of_sq (K : ℕ) : isqrt (K * K) = K := by
  have h1 : isqrt (K * K) ≤ K := isqrt_le_of_le_sq le_rfl
  have h2 := (isqrt_spec (K * K)).2
  nlinarith

theorem ceilSqrt_le_of_le_sq {m K : ℕ} (h : m ≤ K * K) : ceilSqrt m ≤ K := by
  unfold ceilSqrt
  by_cases hp : isqrt m * isqrt m = m
  · rw [if_pos hp]
    exact isqrt_le_of_le_sq h
  · rw [if_neg hp]
    have h1 : isqrt m ≤ K := isqrt_le_of_le_sq h
    rcases eq_or_lt_of_le h1 with heq | hlt
    · exfalso
      have h2 := (isqrt_spec m).1
      rw [heq] at h2
      have : m = K * K := le_antisymm h h2
      rw [heq] at hp
      exact hp this.symm
    · omega

/-! ### Exact bounds for the rounded correlation -/

theorem rat_mul_den_eq_num (c : ℚ) : c * (c.den : ℚ) = (c.num : ℚ) := by
  have hcd : ((c.den : ℚ)) ≠ 0 := by
    exact_mod_cast (Rat.den_pos c).ne'
  rw [eq_comm, ← div_eq_iff hcd]
  exact Rat.num_div_den c

/-- The integer payload of `floorMulSqrt`, recast over ℚ. -/
theorem ratSq_cast_expr (c R : ℚ) (hR : 0 ≤ R) :
    ((c.num.natAbs * c.num.natAbs * (R.num.toNat * R.den) : ℕ) : ℚ)
      = (c^2 * R) * ((c.den : ℚ) * c.den * ((R.den : ℚ) * R.den)) := by
  have hc := rat_mul_den_eq_num c
  have hr := rat_mul_den_eq_num R
  have htn : ((R.num.toNat : ℕ) : ℚ) = (R.num : ℚ) := by
    have h1 : ((R.num.toNat : ℤ)) = R.num := Int.toNat_of_nonneg (Rat.num_nonneg.mpr hR)
    exact_mod_cast congrArg (fun z : ℤ => (z : ℚ)) h1
  have habs : ((c.num.natAbs : ℕ) : ℚ) * ((c.num.natAbs : ℕ) : ℚ) = (c.num : ℚ) * c.num := by
    rw [Int.cast_natAbs]
    push_cast
    exact abs_mul_abs_self _
  push_cast
  push_cast at htn habs
  rw [htn, habs, ← hc, ← hr]
  ring

theorem ratSq_cast_L (L : ℕ) (c R : ℚ) :
    (((L * (c.den * R.den)) * (L * (c.den * R.den)) : ℕ) : ℚ)
      = (((L:ℕ):ℚ))^2 * ((c.den : ℚ) * c.den * ((R.den : ℚ) * R.den)) := by
  push_cast
  ring

theorem ratSq_cast_le {c R : ℚ} (hR : 0 ≤ R) {L : ℕ} (h : c^2 * R ≤ ((L:ℕ):ℚ)^2) :
    c.num.natAbs * c.num.natAbs * (R.num.toNat * R.den)
      ≤ (L * (c.den * R.den)) * (L * (c.den * R.den)) := by
  have hcast : ((c.num.natAbs * c.num.natAbs * (R.num.toNat * R.den) : ℕ) : ℚ)
      ≤ (((L * (c.den * R.den)) * (L * (c.den * R.den)) : ℕ) : ℚ) := by
    rw [ratSq_cast_expr c R hR, ratSq_cast_L L c R]
    apply mul_le_mul_of_nonneg_right h
    positivity
  exact_mod_cast hcast

theorem ratSq_cast_eq {c R : ℚ} (hR : 0 ≤ R) {L : ℕ} (h : c^2 * R = ((L:ℕ):ℚ)^2) :
    c.num.natAbs * c.num.natAbs * (R.num.toNat * R.den)
      = (L * (c.den * R.den)) * (L * (c.den * R.den)) := by
  have hcast : ((c.num.natAbs * c.num.natAbs * (R.num.toNat * R.den) : ℕ) : ℚ)
      = (((L * (c.den * R.den)) * (L * (c.den * R.den)) : ℕ) : ℚ) := by
    rw [ratSq_cast_expr c R hR, ratSq_cast_L L c R, h]
  exact_mod_cast hcast

theorem floorMulSqrt_bounds {c R : ℚ} (hR : 0 ≤ R) {L : ℕ} (h : c^2 * R ≤ ((L:ℕ):ℚ)^2) :
    -(L:ℤ) ≤ floorMulSqrt c R ∧ floorMulSqrt c R ≤ (L:ℤ) := by
  have key := ratSq_cast_le hR h
  have hd : 0 < c.den * R.den := Nat.mul_pos (Rat.den_pos c) (Rat.den_pos R)
  unfold floorMulSqrt
  by_cases hc : 0 ≤ c.num
  · rw [if_pos hc]
    refine ⟨?_, ?_⟩
    · have h0 := Int.natCast_nonneg
        (isqrt (c.num.natAbs * c.num.natAbs * (R.num.toNat * R.den)) / (c.den * R.den))
      omega
    · have harg : isqrt (c.num.natAbs * c.num.natAbs * (R.num.toNat * R.den))
          ≤ L * (c.den * R.den) := isqrt_le_of_le_sq key
      have hdiv : isqrt (c.num.natAbs * c.num.natAbs * (R.num.toNat * R.den)) / (c.den * R.den)
          ≤ L := by
        calc isqrt (c.num.natAbs * c.num.natAbs * (R.num.toNat * R.den)) / (c.den * R.den)
            ≤ (L * (c.den * R.den)) / (c.den * R.den) := Nat.div_le_div_right harg
          _ = L := Nat.mul_div_cancel L hd
      exact_mod_cast hdiv
  · rw [if_neg hc]
    refine ⟨?_, ?_⟩
    · have harg : ceilSqrt (c.num.natAbs * c.num.natAbs * (R.num.toNat * R.den))
          ≤ L * (c.den * R.den) := ceilSqrt_le_of_le_sq key
      have hdiv : (ceilSqrt (c.num.natAbs * c.num.natAbs * (R.num.toNat * R.den))
            + (c.den * R.den) - 1) / (c.den * R.den) ≤ L := by
        have hle : ceilSqrt (c.num.natAbs * c.num.natAbs * (R.num.toNat * R.den))
            + (c.den * R.den) - 1 ≤ ((c.den * R.den) - 1) + (c.den * R.den) * L := by
          have : L * (c.den * R.den) = (c.den * R.den) * L := Nat.mul_comm _ _
          omega
        calc (ceilSqrt (c.num.natAbs * c.num.natAbs * (R.num.toNat * R.den))
              + (c.den * R.den) - 1) / (c.den * R.den)
            ≤ (((c.den * R.den) - 1) + (c.den * R.den) * L) / (c.den * R.den) :=
              Nat.div_le_div_right hle
          _ = ((c.den * R.den) - 1) / (c.den * R.den) + L := Nat.add_mul_div_left _ _ hd
          _ = L := by rw [Nat.div_eq_of_lt (by omega)]; omega
      have : -(L:ℤ) ≤ -(((ceilSqrt (c.num.natAbs * c.num.natAbs * (R.num.toNat * R.den))
          + (c.den * R.den) - 1) / (c.den * R.den) : ℕ) : ℤ) := by
        apply neg_le_neg
        exact_mod_cast hdiv
      exact this
    · have h0 := Int.natCast_nonneg
        ((ceilSqrt (c.num.natAbs * c.num.natAbs * (R.num.toNat * R.den))
          + (c.den * R.den) - 1) / (c.den * R.den))
      omega

theorem floorMulSqrt_exact {c R : ℚ} (hR : 0 ≤ R) {L : ℕ} (hcn : 0 ≤ c.num)
    (h : c^2 * R = ((L:ℕ):ℚ)^2) : floorMulSqrt c R = (L:ℤ) := by
  have key := ratSq_cast_eq hR h
  have hd : 0 < c.den * R.den := Nat.mul_pos (Rat.den_pos c) (Rat.den_pos R)
  unfold floorMulSqrt
  rw [if_pos hcn, key, isqrt_of_sq, Nat.mul_div_cancel L hd]

/-- The rounded `a/√D` lies in `[-1, 1]` whenever `a² ≤ D` (so the true
value lies in `[-1, 1]`). -/
theorem roundCorr_bounds {a D : ℚ} (hD : 0 < D) (h : a^2 ≤ D) :
    -1 ≤ roundCorr a D ∧ roundCorr a D ≤ 1 := by
  have hDne : D ≠ 0 := ne_of_gt hD
  have hc : (2000 * a / D)^2 * D ≤ ((2000:ℕ):ℚ)^2 := by
    have he : (2000 * a / D)^2 * D = 2000^2 * (a^2 / D) := by
      field_simp
      ring
    rw [he]
    have h1 : a^2 / D ≤ 1 := (div_le_one hD).mpr h
    push_cast
    nlinarith
  obtain ⟨hlo, hhi⟩ := floorMulSqrt_bounds (le_of_lt hD) hc
  unfold roundCorr
  have hq1 : ((-1999 : ℤ)) / 2 ≤ (floorMulSqrt (2000 * a / D) D + 1) / 2 :=
    Int.ediv_le_ediv (by omega) (by push_cast at hlo; omega)
  have hq2 : (floorMulSqrt (2000 * a / D) D + 1) / 2 ≤ ((2001 : ℤ)) / 2 :=
    Int.ediv_le_ediv (by omega) (by push_cast at hhi; omega)
  have he1 : ((-1999 : ℤ)) / 2 = -1000 := by decide
  have he2 : ((2001 : ℤ)) / 2 = 1000 := by decide
  constructor
  · rw [le_div_iff₀ (by norm_num : (0:ℚ) < 1000)]
    have h2 : (-1000 : ℤ) ≤ (floorMulSqrt (2000 * a / D) D + 1) / 2 := by omega
    calc (-1 : ℚ) * 1000 = ((-1000 : ℤ) : ℚ) := by norm_num
      _ ≤ _ := by exact_mod_cast h2
  · rw [div_le_one (by norm_num : (0:ℚ) < 1000)]
    have h2 : (floorMulSqrt (2000 * a / D) D + 1) / 2 ≤ (1000 : ℤ) := by omega
    calc ((((floorMulSqrt (2000 * a / D) D + 1) / 2 : ℤ)) : ℚ)
        ≤ ((1000 : ℤ) : ℚ) := by exact_mod_cast h2
      _ = 1000 := by norm_num

/-- The rounded self-correlation `s/√(s·s)` is exactly 1 for `s > 0`. -/
theorem roundCorr_diag {s : ℚ} (hpos : 0 < s) : roundCorr s (s * s) = 1 := by
  have hne : s ≠ 0 := ne_of_gt hpos
  have harg : 2000 * s / (s * s) = 2000 / s := by
    field_simp
    ring
  have hcn : 0 ≤ (2000 / s).num := Rat.num_nonneg.mpr (by positivity)
  have hsq : (2000 / s)^2 * (s * s) = ((2000:ℕ):ℚ)^2 := by
    field_simp
    ring
  unfold roundCorr
  rw [harg, floorMulSqrt_exact (by positivity) hcn hsq]
  have he : (((2000:ℕ):ℤ) + 1) / 2 = 1000 := by decide
  rw [he]
  norm_num

/-! ### Cauchy–Schwarz and the correlation-cell properties -/

/-- Cauchy–Schwarz for lists of pairs. -/
theorem list_inner_sq_le (l : List (ℚ × ℚ)) :
    ((l.map (fun p => p.1 * p.2)).sum) * ((l.map (fun p => p.1 * p.2)).sum)
      ≤ ((l.map (fun p => p.1 * p.1)).sum) * ((l.map (fun p => p.2 * p.2)).sum) := by
  induction l with
  | nil => simp
  | cons p t ih =>
    simp only [List.map_cons, List.sum_cons]
    have hA : 0 ≤ (t.map (fun p => p.1 * p.1)).sum := by
      apply List.sum_nonneg
      intro x hx
      obtain ⟨q, _, rfl⟩ := List.mem_map.mp hx
      exact mul_self_nonneg _
    have hB : 0 ≤ (t.map (fun p => p.2 * p.2)).sum := by
      apply List.sum_nonneg
      intro x hx
      obtain ⟨q, _, rfl⟩ := List.mem_map.mp hx
      exact mul_self_nonneg _
    have h1 : (2 * (p.1 * p.2) * (t.map (fun p => p.1 * p.2)).sum)
          * (2 * (p.1 * p.2) * (t.map (fun p => p.1 * p.2)).sum)
        ≤ (p.1 * p.1 * (t.map (fun p => p.2 * p.2)).sum
            + p.2 * p.2 * (t.map (fun p => p.1 * p.1)).sum)
          * (p.1 * p.1 * (t.map (fun p => p.2 * p.2)).sum
            + p.2 * p.2 * (t.map (fun p => p.1 * p.1)).sum) := by
      nlinarith [ih, sq_nonneg (p.1 * p.1 * (t.map (fun p => p.2 * p.2)).sum
        - p.2 * p.2 * (t.map (fun p => p.1 * p.1)).sum), sq_nonneg (p.1 * p.2),
        mul_nonneg hA hB]
    have h2 : 0 ≤ p.1 * p.1 * (t.map (fun p => p.2 * p.2)).sum
        + p.2 * p.2 * (t.map (fun p => p.1 * p.1)).sum := by
      have := mul_nonneg (mul_self_nonneg p.1) hB
      have := mul_nonneg (mul_self_nonneg p.2) hA
      linarith
    have key : 2 * (p.1 * p.2) * (t.map (fun p => p.1 * p.2)).sum
        ≤ p.1 * p.1 * (t.map (fun p => p.2 * p.2)).sum
          + p.2 * p.2 * (t.map (fun p => p.1 * p.1)).sum := by
      nlinarith [h1, h2, sq_nonneg (2 * (p.1 * p.2) * (t.map (fun p => p.1 * p.2)).sum
        - (p.1 * p.1 * (t.map (fun p => p.2 * p.2)).sum
          + p.2 * p.2 * (t.map (fun p => p.1 * p.1)).sum))]
    nlinarith [key, ih, hA, hB]

theorem sxxOf_nonneg (ps : List (ℚ × ℚ)) : 0 ≤ sxxOf ps := by
  apply List.sum_nonneg
  intro x hx
  obtain ⟨q, _, rfl⟩ := List.mem_map.mp hx
  exact mul_self_nonneg _

theorem syyOf_nonneg (ps : List (ℚ × ℚ)) : 0 ≤ syyOf ps := by
  apply List.sum_nonneg
  intro x hx
  obtain ⟨q, _, rfl⟩ := List.mem_map.mp hx
  exact mul_self_nonneg _

/-- Cauchy–Schwarz for the centred sums of a pair list. -/
theorem sxy_sq_le (ps : List (ℚ × ℚ)) : sxyOf ps * sxyOf ps ≤ sxxOf ps * syyOf ps := by
  have h := list_inner_sq_le (ps.map (fun p => (p.1 - meanFst ps, p.2 - meanSnd ps)))
  rw [List.map_map, List.map_map, List.map_map] at h
  exact h

/-- Any emitted correlation cell lies in `[-1, 1]`. -/
theorem corrCell_bounds {xs ys : List (Option ℚ)} {v : ℚ}
    (h : corrCell xs ys = some v) : -1 ≤ v ∧ v ≤ 1 := by
  unfold corrCell at h
  by_cases hemp : (validPairs xs ys).isEmpty
  · rw [if_pos hemp] at h
    exact Option.noConfusion h
  · rw [if_neg hemp] at h
    by_cases hz : sxxOf (validPairs xs ys) = 0 ∨ syyOf (validPairs xs ys) = 0
    · rw [if_pos hz] at h
      exact Option.noConfusion h
    · rw [if_neg hz] at h
      push_neg at hz
      have hv := Option.some.inj h
      have hxx : 0 < sxxOf (validPairs xs ys) :=
        lt_of_le_of_ne (sxxOf_nonneg _) (Ne.symm hz.1)
      have hyy : 0 < syyOf (validPairs xs ys) :=
        lt_of_le_of_ne (syyOf_nonneg _) (Ne.symm hz.2)
      have hsq : (sxyOf (validPairs xs ys))^2
          ≤ sxxOf (validPairs xs ys) * syyOf (validPairs xs ys) := by
        have := sxy_sq_le (validPairs xs ys)
        nlinarith
      rw [← hv]
      exact roundCorr_bounds (mul_pos hxx hyy) hsq

theorem validPairs_swap (xs ys : List (Option ℚ)) :
    validPairs ys xs = (validPairs xs ys).map Prod.swap := by
  unfold validPairs
  rw [← List.zip_swap xs ys, List.filterMap_map, List.map_filterMap]
  congr 1
  funext p
  rcases p with ⟨_ | a, _ | b⟩ <;> rfl

theorem meanFst_swap (ps : List (ℚ × ℚ)) : meanFst (ps.map Prod.swap) = meanSnd ps := by
  unfold meanFst meanSnd
  rw [List.map_map, List.length_map]
  rfl

theorem meanSnd_swap (ps : List (ℚ × ℚ)) : meanSnd (ps.map Prod.swap) = meanFst ps := by
  unfold meanFst meanSnd
  rw [List.map_map, List.length_map]
  rfl

theorem sxyOf_swap (ps : List (ℚ × ℚ)) : sxyOf (ps.map Prod.swap) = sxyOf ps := by
  unfold sxyOf
  rw [List.map_map, meanFst_swap, meanSnd_swap]
  refine congrArg List.sum (List.map_congr_left fun p hp => ?_)
  show (p.2 - meanSnd ps) * (p.1 - meanFst ps)
      = (p.1 - meanFst ps) * (p.2 - meanSnd ps)
  ring

theorem sxxOf_swap (ps : List (ℚ × ℚ)) : sxxOf (ps.map Prod.swap) = syyOf ps := by
  unfold sxxOf syyOf
  rw [List.map_map, meanFst_swap]
  rfl

theorem syyOf_swap (ps : List (ℚ × ℚ)) : syyOf (ps.map Prod.swap) = sxxOf ps := by
  unfold sxxOf syyOf
  rw [List.map_map, meanSnd_swap]
  rfl

/-- The correlation cell is symmetric in the two columns. -/
theorem corrCell_symm (xs ys : List (Option ℚ)) : corrCell xs ys = corrCell ys xs := by
  unfold corrCell
  rw [validPairs_swap xs ys, sxyOf_swap, sxxOf_swap, syyOf_swap]
  have hemp : ((validPairs xs ys).map Prod.swap).isEmpty = (validPairs xs ys).isEmpty := by
    cases validPairs xs ys <;> rfl
  rw [hemp]
  by_cases h1 : (validPairs xs ys).isEmpty
  · rw [if_pos h1, if_pos h1]
  · rw [if_neg h1, if_neg h1]
    by_cases h2 : sxxOf (validPairs xs ys) = 0 ∨ syyOf (validPairs xs ys) = 0
    · rw [if_pos h2, if_pos (or_comm.mp h2)]
    · rw [if_neg h2, if_neg (fun hc => h2 (or_comm.mp hc)),
        mul_comm (sxxOf (validPairs xs ys)) (syyOf (validPairs xs ys))]

theorem validPairs_self (xs : List (Option ℚ)) :
    validPairs xs xs = (xs.filterMap id).map (fun a => (a, a)) := by
  unfold validPairs
  induction xs with
  | nil => rfl
  | cons x t ih =>
    rcases x with _ | a
    · simp only [List.zip_cons_cons, List.filterMap_cons, id_eq, List.map_cons]
      exact ih
    · simp only [List.zip_cons_cons, List.filterMap_cons, id_eq, List.map_cons]
      rw [ih]

theorem mem_validPairs_self {xs : List (Option ℚ)} {p : ℚ × ℚ}
    (hp : p ∈ validPairs xs xs) : p.1 = p.2 := by
  rw [validPairs_self] at hp
  obtain ⟨a, _, rfl⟩ := List.mem_map.mp hp
  rfl

theorem meanFst_self (xs : List (Option ℚ)) :
    meanFst (validPairs xs xs) = meanSnd (validPairs xs xs) := by
  rw [validPairs_self]
  unfold meanFst meanSnd
  rw [List.map_map, List.map_map]
  rfl

theorem sxyOf_self (xs : List (Option ℚ)) :
    sxyOf (validPairs xs xs) = sxxOf (validPairs xs xs) := by
  unfold sxyOf sxxOf
  refine congrArg List.sum (List.map_congr_left fun p hp => ?_)
  rw [mem_validPairs_self hp, meanFst_self]

theorem syyOf_self (xs : List (Option ℚ)) :
    syyOf (validPairs xs xs) = sxxOf (validPairs xs xs) := by
  unfold syyOf sxxOf
  refine congrArg List.sum (List.map_congr_left fun p hp => ?_)
  rw [mem_validPairs_self hp, meanFst_self]

/-- A defined (non-NaN) diagonal correlation cell is exactly 1. -/
theorem corrCell_diag {xs : List (Option ℚ)} {v : ℚ}
    (h : corrCell xs xs = some v) : v = 1 := by
  unfold corrCell at h
  by_cases hemp : (validPairs xs xs).isEmpty
  · rw [if_pos hemp] at h
    exact Option.noConfusion h
  rw [if_neg hemp] at h
  by_cases hz : sxxOf (validPairs xs xs) = 0 ∨ syyOf (validPairs xs xs) = 0
  · rw [if_pos hz] at h
    exact Option.noConfusion h
  rw [if_neg hz] at h
  push_neg at hz
  have hxx : 0 < sxxOf (validPairs xs xs) :=
    lt_of_le_of_ne (sxxOf_nonneg _) (Ne.symm hz.1)
  rw [← Option.some.inj h, sxyOf_self, syyOf_self]
  exact roundCorr_diag hxx

/-- Extracting the correlation matrix from a present correlation block. -/
theorem correlation_eq_corrMatrix {ts : Option TableSchema} {rows : List Row}
    {m : List (String × List (String × Option ℚ))}
    (h : (profileTable ts rows).correlation = some m) :
    m = corrMatrix (numericCols rows) := by
  by_cases hnil : rows = []
  · subst hnil
    rw [profileTable_nil] at h
    exact Option.noConfusion h
  · rw [profileTable_correlation hnil] at h
    by_cases hlen : 2 ≤ (numericCols rows).length
    · rw [if_pos hlen] at h
      exact (Option.some.inj h).symm
    · rw [if_neg hlen] at h
      exact Option.noConfusion h

/-- C9: the duplicated implementations in `src/main.py` are extensionally
equal to the `src/dataide/services` implementations. -/
theorem c9_duplicates_extensionally_equal :
    MainPy.compute_profile = compute_profile
      ∧ MainPy.suggest_charts = suggest_charts
      ∧ MainPy.profile_to_rows = profile_to_rows :=
  ⟨rfl, rfl, rfl⟩

/-- C4: the profiling/charting core is total — `compute_profile` returns one
profile per input table (same keys, same order) and `suggest_charts` returns
at most 6 charts — and degrades gracefully: per-value coercion failures are
local (`coerce_numeric`/`coerce_datetime` are element-wise maps by
definition), a column with no coercible value gets no numeric/date block, and
fewer than two numeric-coercible columns yield no correlation block. -/
theorem c4_total_graceful (srs : List (String × List Row)) (tables : List TableSchema) :
    (compute_profile srs tables).map Prod.fst = srs.map Prod.fst
    ∧ (suggest_charts srs).length ≤ 6
    ∧ (∀ rc ts c cells, (∀ x ∈ coerce_numeric cells, x = none) →
        (profileColumn rc ts c cells).numeric = none)
    ∧ (∀ rc ts c cells, (∀ x ∈ coerce_datetime cells, x = none) →
        (profileColumn rc ts c cells).dates = none)
    ∧ (∀ ts rows, (numericCols rows).length < 2 → (profileTable ts rows).correlation = none) := by
  refine ⟨?_, ?_, ?_, ?_, ?_⟩
  · simp [compute_profile]
  · exact List.length_take_le _ _
  · intro rc ts c cells hall
    rw [profileColumn_numeric]
    have hnil : (coerce_numeric cells).filterMap id = [] :=
      List.filterMap_eq_nil_iff.mpr (by simpa using hall)
    split
    · rw [if_pos (List.isEmpty_iff.mpr hnil)]
    · rfl
  · intro rc ts c cells hall
    rw [profileColumn_dates]
    have hnil : (coerce_datetime cells).filterMap id = [] :=
      List.filterMap_eq_nil_iff.mpr (by simpa using hall)
    split
    · rw [if_pos (List.isEmpty_iff.mpr hnil)]
    · rfl
  · intro ts rows h
    cases hrw : rows with
    | nil => simp [profileTable_nil, emptyTP]
    | cons r t =>
      rw [← hrw, profileTable_correlation (by simp [hrw])]
      rw [if_neg (by omega)]

/-- Witness for C4 at concrete inputs. -/
theorem c4_total_graceful_witness :
    (compute_profile srsCharts []).map Prod.fst = srsCharts.map Prod.fst
    ∧ (suggest_charts srsCharts).length ≤ 6
    ∧ (profileColumn 2 none "c" [some (Scalar.text "zz"), none]).numeric = none
    ∧ (profileColumn 2 none "order_date" [some (Scalar.text "zz"), none]).dates = none
    ∧ (profileTable none [[("c", Scalar.text "zz")]]).correlation = none := by
  obtain ⟨h1, h2, h3, h4, h5⟩ := c4_total_graceful srsCharts []
  exact ⟨h1, h2, h3 2 none "c" _ (by decide), h4 2 none "order_date" _ (by decide),
    h5 none _ (by decide)⟩

/-- C1 counterexample: in table `srsNumStr` the single column `"a"` holds the
numeric string `"1"` with no schema hint; numeric coercion yields a non-null
value, yet the emitted column profile has no numeric block — refuting the
claim that the numeric block appears iff coercion yields at least one
non-null value. -/
theorem c1_counterexample :
    (coerce_numeric (colCells rowsNumStr "a")).any Option.isSome = true
    ∧ ((tpOf srsNumStr [] "t").columns.lookup "a").map (fun cp => cp.numeric.isSome)
        = some false := by decide

/-- C1 (amended): the numeric block is present iff the trigger fires — the
schema hint names a numeric type OR the column's native dtype is numeric —
AND numeric coercion yields at least one non-null value.  In particular a
numeric hint with zero coercible values produces no block, and a column of
numeric strings with neither hint nor numeric dtype also produces no block. -/
theorem c1_numeric_gating (srs : List (String × List Row)) (tables : List TableSchema)
    (tname : String) (tp : TableProfile) (c : String) (cp : ColProfile)
    (h1 : (tname, tp) ∈ compute_profile srs tables)
    (h2 : (c, cp) ∈ tp.columns) :
    ∃ rows, (tname, rows) ∈ srs ∧ c ∈ columnsOf rows ∧
      (cp.numeric.isSome = true ↔
        ((hintIsNumeric (hintFor (schemaFor tables tname) c)
            || isNumericDtype (inferDType (colCells rows c))) = true
          ∧ (coerce_numeric (colCells rows c)).any Option.isSome = true)) := by
  obtain ⟨rows, hmem, rfl⟩ := mem_compute_profile.mp h1
  have hne := columns_nonempty_of_mem h2
  obtain ⟨hc, rfl⟩ := (mem_profileTable_columns hne).mp h2
  exact ⟨rows, hmem, hc, profileColumn_numeric_isSome _ _ _ _⟩

/-- If a table block contains a line chart, the block starts with a histogram
chart on the first numeric-coercible column, which is also the line's y. -/
theorem tableCharts_line {tname : String} {rows : List Row} {ch : SuggestedChart}
    (h : ch ∈ tableCharts tname rows) (hk : ch.kind = "line") :
    ∃ hc rest, tableCharts tname rows = hc :: rest ∧ hc.kind = "hist" ∧ hc.table = tname
      ∧ ch.table = tname ∧ ch.y = some hc.x
      ∧ (columnsOf rows).find? (fun c => numAnyPred rows c) = some hc.x := by
  by_cases he : rows.isEmpty
  · simp only [tableCharts, if_pos he] at h
    simp at h
  · simp only [tableCharts, if_neg he] at h
    cases hnum : (columnsOf rows).find? (fun c => numAnyPred rows c) with
    | none =>
      rw [hnum] at h
      simp only [List.nil_append, List.mem_append] at h
      rcases h with h | h
      · rcases hbar : (columnsOf rows).find? (fun c =>
            inferDType (colCells rows c) == DType.objectD
              && (firstSeen ((colCells rows c).map strOfCell)).length ≤ 30) with _ | c <;>
          rw [hbar] at h <;> simp at h
        · rw [h] at hk; simp at hk
      · rcases hdate : (columnsOf rows).find? (fun c =>
            strContains "date" (lowerStr c)
              && (coerce_datetime (colCells rows c)).any Option.isSome) with _ | dc <;>
          rw [hdate] at h <;> simp at h
    | some nc =>
      rw [hnum] at h
      simp only [List.mem_append, List.mem_singleton] at h
      rcases h with (h | h) | h
      · rw [h] at hk; simp at hk
      · rcases hbar : (columnsOf rows).find? (fun c =>
            inferDType (colCells rows c) == DType.objectD
              && (firstSeen ((colCells rows c).map strOfCell)).length ≤ 30) with _ | c <;>
          rw [hbar] at h <;> simp at h
        · rw [h] at hk; simp at hk
      · rcases hdate : (columnsOf rows).find? (fun c =>
            strContains "date" (lowerStr c)
              && (coerce_datetime (colCells rows c)).any Option.isSome) with _ | dc <;>
          rw [hdate] at h
        · simp at h
        · replace h : ch ∈ (if (dc != "" && nc != "") = true then
              [{ title := tname ++ ": " ++ nc ++ " over " ++ dc, kind := "line", table := tname,
                 x := dc, y := some nc, note := none : SuggestedChart }] else []) := h
          by_cases hnz : (dc != "" && nc != "") = true
          · rw [if_pos hnz] at h
            simp only [List.mem_singleton] at h
            refine ⟨{ title := tname ++ "." ++ nc ++ " — distribution", kind := "hist",
                      table := tname, x := nc, y := none, note := none },
                    (tableCharts tname rows).tail,
                    ?_, rfl, rfl, ?_, ?_, rfl⟩
            · simp only [tableCharts, if_neg he, hnum, hdate, if_pos hnz]
              rfl
            · rw [h]
            · rw [h]
          · rw [if_neg hnz] at h
            simp at h

/-- Any line chart inside `take k` of the flattened per-table blocks has a
histogram chart of the same table inside the same prefix, with the line's y
equal to the histogram's x, the first numeric-coercible column. -/
theorem line_in_take {l : List (String × List Row)} {k : ℕ} {ch : SuggestedChart}
    (h : ch ∈ ((l.map (fun p => tableCharts p.1 p.2)).flatten).take k)
    (hk : ch.kind = "line") :
    ∃ hc, hc ∈ ((l.map (fun p => tableCharts p.1 p.2)).flatten).take k
      ∧ hc.kind = "hist" ∧ hc.table = ch.table ∧ ch.y = some hc.x
      ∧ ∃ rows, (ch.table, rows) ∈ l
          ∧ (columnsOf rows).find? (fun c => numAnyPred rows c) = some hc.x := by
  induction l generalizing k with
  | nil => simp at h
  | cons p t ih =>
    rw [List.map_cons, List.flatten_cons, List.take_append_eq_append_take] at h
    rcases List.mem_append.mp h with h1 | h1
    · have hch : ch ∈ tableCharts p.1 p.2 := List.take_subset _ _ h1
      obtain ⟨hc, rest, hbeq, hkind, htab, htab2, hy, hfind⟩ := tableCharts_line hch hk
      have hhead : hc ∈ (tableCharts p.1 p.2).take k := by
        cases k with
        | zero => simp at h1
        | succ n => rw [hbeq]; exact List.mem_cons_self _ _
      refine ⟨hc, ?_, hkind, by rw [htab, htab2], hy, p.2, ?_, hfind⟩
      · rw [List.map_cons, List.flatten_cons, List.take_append_eq_append_take]
        exact List.mem_append.mpr (Or.inl hhead)
      · rw [htab2]
        exact List.mem_cons_self _ _
    · obtain ⟨hc, hmem, hkind, htab, hy, rows, hrows, hfind⟩ := ih h1
      refine ⟨hc, ?_, hkind, htab, hy, rows, List.mem_cons_of_mem _ hrows, hfind⟩
      rw [List.map_cons, List.flatten_cons, List.take_append_eq_append_take]
      exact List.mem_append.mpr (Or.inr hmem)

/-- C10: whenever `suggest_charts` emits a line suggestion for a table, it
also emitted a histogram suggestion for that table (surviving the same
6-element truncation), and the line's y column equals the histogram's x
column — both being the first column, in column order, whose numeric coercion
yields at least one non-null value.  (A date-named column that is itself the
first numeric-coercible column is therefore paired with itself.) -/
theorem c10_line_implies_hist (srs : List (String × List Row)) (ch : SuggestedChart)
    (h : ch ∈ suggest_charts srs) (hk : ch.kind = "line") :
    ∃ hc, hc ∈ suggest_charts srs ∧ hc.kind = "hist" ∧ hc.table = ch.table
      ∧ ch.y = some hc.x
      ∧ ∃ rows, (ch.table, rows) ∈ srs
          ∧ (columnsOf rows).find? (fun c => numAnyPred rows c) = some hc.x :=
  line_in_take h hk

/-- Witness for C10 at a concrete table with a date and a numeric column. -/
theorem c10_line_implies_hist_witness :
    ∃ hc, hc ∈ suggest_charts srsCharts ∧ hc.kind = "hist"
      ∧ hc.table = ({ title := "t: amount over order_date", kind := "line", table := "t",
                      x := "order_date", y := some "amount" : SuggestedChart }).table
      ∧ ({ title := "t: amount over order_date", kind := "line", table := "t",
           x := "order_date", y := some "amount" : SuggestedChart }).y = some hc.x
      ∧ ∃ rows, (({ title := "t: amount over order_date", kind := "line", table := "t",
                    x := "order_date", y := some "amount" : SuggestedChart }).table, rows) ∈ srsCharts
          ∧ (columnsOf rows).find? (fun c => numAnyPred rows c) = some hc.x :=
  c10_line_implies_hist srsCharts _ (by decide) (by decide)

/-- Witness for C1 at a concrete natively numeric table. -/
theorem c1_numeric_gating_witness :
    ∃ rows, ("t", rows) ∈ srsNatNum ∧ "a" ∈ columnsOf rows ∧
      ((cpOf (tpOf srsNatNum [] "t") "a").numeric.isSome = true ↔
        ((hintIsNumeric (hintFor (schemaFor [] "t") "a")
            || isNumericDtype (inferDType (colCells rows "a"))) = true
          ∧ (coerce_numeric (colCells rows "a")).any Option.isSome = true)) :=
  c1_numeric_gating srsNatNum [] "t" (tpOf srsNatNum [] "t") "a"
    (cpOf (tpOf srsNatNum [] "t") "a") (by decide) (by decide)

/-- C3 counterexample: the claim "every diagonal entry (a,a) equals 1.0"
fails.  For the table with a constant column `a`, the profile has a
correlation block (both columns coerce, so `numeric_df` has two columns),
the matrix row for `a` has an `(a, a)` entry, and that entry is NaN
(`none`), not 1.0: pandas computes `cov/(std·std) = 0/0` for a zero-variance
column and never special-cases the diagonal. -/
theorem c3_counterexample :
    (tpOf srsConst [] "t").correlation.map (fun m => corrLookup m "a" "a")
      = some (some none) := by
  decide

/-- C3 (amended): whenever a table profile emitted by `compute_profile`
contains a correlation block, the matrix lookup is symmetric in the two
column names, every *defined* (non-NaN) diagonal entry equals 1, and every
defined entry — off-diagonal or not — lies in `[-1, 1]` after rounding to
3 decimals.  (Zero-variance columns make their whole row and column NaN,
the diagonal cell included, which is why "every diagonal entry equals 1.0"
must be weakened to the defined ones.) -/
theorem c3_correlation_matrix {srs : List (String × List Row)}
    {tables : List TableSchema} {tname : String} {tp : TableProfile}
    {m : List (String × List (String × Option ℚ))}
    (hmem : (tname, tp) ∈ compute_profile srs tables)
    (hcorr : tp.correlation = some m) :
    (∀ a b, corrLookup m a b = corrLookup m b a) ∧
    (∀ a v, corrLookup m a a = some (some v) → v = 1) ∧
    (∀ a b v, corrLookup m a b = some (some v) → -1 ≤ v ∧ v ≤ 1) := by
  obtain ⟨rows, hrows, htp⟩ := mem_compute_profile.mp hmem
  subst htp
  have hm := correlation_eq_corrMatrix hcorr
  subst hm
  refine ⟨?_, ?_, ?_⟩
  · intro a b
    rw [corrLookup_corrMatrix, corrLookup_corrMatrix]
    cases hx : (numericCols rows).lookup a with
    | none =>
      cases hy : (numericCols rows).lookup b with
      | none => rfl
      | some ys => rfl
    | some xs =>
      cases hy : (numericCols rows).lookup b with
      | none => rfl
      | some ys =>
        simp only [Option.some_bind, Option.map_some']
        rw [corrCell_symm]
  · intro a v hv
    rw [corrLookup_corrMatrix] at hv
    cases hx : (numericCols rows).lookup a with
    | none =>
      rw [hx] at hv
      exact Option.noConfusion hv
    | some xs =>
      rw [hx] at hv
      simp only [Option.some_bind, Option.map_some'] at hv
      exact corrCell_diag (Option.some.inj hv)
  · intro a b v hv
    rw [corrLookup_corrMatrix] at hv
    cases hx : (numericCols rows).lookup a with
    | none =>
      rw [hx] at hv
      exact Option.noConfusion hv
    | some xs =>
      cases hy : (numericCols rows).lookup b with
      | none =>
        rw [hx, hy] at hv
        exact Option.noConfusion hv
      | some ys =>
        rw [hx, hy] at hv
        simp only [Option.some_bind, Option.map_some'] at hv
        exact corrCell_bounds (Option.some.inj hv)

/-- Witness for C3 at the two perfectly correlated columns of `rowsCorr`:
the block is present, `corr(a,b) = corr(b,a)`, the defined diagonal entry is
1, and the looked-up off-diagonal value 1 is within the bounds. -/
theorem c3_correlation_matrix_witness :
    corrLookup (corrMatrix (numericCols rowsCorr)) "a" "b"
        = corrLookup (corrMatrix (numericCols rowsCorr)) "b" "a"
      ∧ (1 : ℚ) = 1 ∧ (-1 ≤ (1 : ℚ) ∧ (1 : ℚ) ≤ 1) := by
  have h := @c3_correlation_matrix srsCorr [] "t"
    (profileTable (schemaFor [] "t") rowsCorr) (corrMatrix (numericCols rowsCorr))
    (by decide) (by decide)
  exact ⟨h.1 "a" "b", h.2.1 "a" 1 (by decide), h.2.2 "a" "b" 1 (by decide)⟩

end DataIDE



